import Mathlib

/-!
LoRa point-to-point test: receiver window, packet codec and framing.

A shallow embedding of the C sources `p2p_receiver.c`, `p2p_sender.c`,
`io_ops.c`, `gps_analyzer.c` and of `change_vmin` of `serial_port_config.c`.

Conventions of the embedding.

* A `char` is a natural number (its byte value); a piece of memory reached
  through a `char *` is the list of the bytes stored from the pointer to the
  end of the enclosing array, so that `p + 1` is the tail of `p`.
* An `int` is an integer; an arithmetic result is brought back into the
  32-bit two's-complement range with `wrap_int`.
* A function whose C behaviour can be undefined (a read or write outside an
  array) returns an `Option`, and `none` stands for that case.
* Text printed on standard output is left out, except the reception rate
  printed by the alarm handler, which is the value the handler computes.
* A `double` of `get_distance` is an element of a field, and the arithmetic
  is taken without rounding; the functions of `math.h` are parameters.
-/

namespace LoraMesh

/-! ## Characters and machine integers -/

/-- The terminator of a C string. -/
def NUL : Nat := 0

/-- The line feed that ends a packet. -/
def NEWLINE : Nat := 10

/-- The field separator of packets and GPS sentences. -/
def COMMA : Nat := 44

/-- The smallest value of a 32-bit `int`. -/
def INT_MIN : Int := -2147483648

/-- The largest value of a 32-bit `int`. -/
def INT_MAX : Int := 2147483647

/-- Reduction of an integer into the range of a 32-bit two's-complement `int`. -/
def wrap_int (x : Int) : Int := (x + 2147483648) % 4294967296 - 2147483648

/-! ## p2p_receiver.h: the measurement window -/

/-- The period of the alarm in seconds, also used as the number of packets
expected in one test run (`#define TIMER 20`). -/
def TIMER : Int := 20

/-- The three static counters of `p2p_receiver.h`: the number of accepted
packets of the run and the sequence numbers of its first and last accepted
packet. -/
structure Window where
  cnt : Int
  first : Int
  last : Int
deriving DecidableEq, Repr

/-- The initial values `cnt = 0`, `first = -1`, `last = -1`. -/
def Window.initial : Window := { cnt := 0, first := -1, last := -1 }

/-! ## p2p_receiver.c -/

/-- The number of the alarm signal on Linux. -/
def SIGALRM : Int := 14

/-- The reception rate printed by `sig_alrm`, in percent. The C expression
`(double)(cnt) / (double)(TIMER) * 100` is kept as an exact rational; the
handler prints it with two decimals. -/
def prr (w : Window) : ℚ :=
  if w.cnt > TIMER then 100
  else if w.cnt = TIMER - 1 then
    if wrap_int (w.last - w.first) = w.cnt then 100
    else (w.cnt : ℚ) / (TIMER : ℚ) * 100
  else (w.cnt : ℚ) / (TIMER : ℚ) * 100

/-- The handler `sig_alrm`. `signal_ok` tells whether re-installing the
handler succeeds; when it does not the process exits, which is `none`.
The result is the printed rate, if any, and the counters afterwards. -/
def sig_alrm (signo : Int) (signal_ok : Bool) (w : Window) : Option (Option ℚ × Window) :=
  if signo = SIGALRM then
    if signal_ok then
      some (some (prr w), { cnt := 0, first := -1, last := -1 })
    else none
  else some (none, w)

/-- The loop of `is_complete_packet`,
`for (int i = 0; *(packet + i) != 0; i++) if (*(packet + i) == ',') cnt++;`
with `p` the memory at `packet + i` and `cnt` the commas counted so far.
Running off the array is `none`. -/
def count_commas : List Nat → Int → Option Int
  | [], _ => none
  | c :: p, cnt =>
    if c = NUL then some cnt
    else count_commas p (if c = COMMA then wrap_int (cnt + 1) else cnt)

/-- The function `is_complete_packet`: the number of commas when it is 5,
and -1 otherwise. -/
def is_complete_packet (packet : List Nat) : Option Int :=
  (count_commas packet 0).map fun cnt => if cnt ≠ 5 then -1 else cnt

/-- The update of the counters at the end of an iteration of the loop of
`main` for an accepted packet (`if (first < 0) first = sequence;
last = sequence; cnt++;`). `sequence` is the `long` read from the packet;
storing it in an `int` keeps its low 32 bits. -/
def main_accept (sequence : Int) (w : Window) : Window :=
  { first := if w.first < 0 then wrap_int sequence else w.first
    last := wrap_int sequence
    cnt := wrap_int (w.cnt + 1) }

/-- The counters after the packets with the given sequence numbers were
accepted one after the other, with no alarm in between. -/
def main_accept_all (seqs : List Int) (w : Window) : Window :=
  seqs.foldl (fun w sequence => main_accept sequence w) w

/-! ## C strings -/

/-- The library function `strlen` on the memory `s`: the number of bytes
before the first NUL; `none` when the array ends before a NUL is met. -/
def strlen : List Nat → Option Nat
  | [] => none
  | c :: s => if c = NUL then some 0 else (strlen s).map (· + 1)

/-- The store of an `int` value into a `char`, as a byte. -/
def to_char (x : Int) : Nat := (x % 256).toNat

/-! ## gps_analyzer.c -/

/-- The size of a buffer that holds a GPS sentence. -/
def GPS_INFO_SIZE : Nat := 100

/-- The tag `$GPGGA`. -/
def GPGGA : List Nat := [36, 71, 80, 71, 71, 65]

/-- The function `is_gpgga`: `strncmp(cmd, "$GPGGA", 6)` is zero exactly when
the first six bytes of `cmd` are the tag. -/
def is_gpgga (cmd : List Nat) : Bool := cmd.take 6 == GPGGA

/-- The first loop of `get_nth_parameter`,
`for (i = 0, j = 0; j < GPS_INFO_SIZE && i < n; j++) if (cmd[j] == ',') i++;`
with `p` the memory at `cmd + j`. The result is `i`, `j` and the memory at
`cmd + j` after the loop; reading past the end of the array is `none`.
Since `i < n` before each increment, `i` cannot overflow. -/
def skip_parameters (n : Int) : List Nat → Int → Nat → Option (Int × Nat × List Nat)
  | [], i, j => if j < GPS_INFO_SIZE ∧ i < n then none else some (i, j, [])
  | c :: p, i, j =>
    if j < GPS_INFO_SIZE ∧ i < n then
      skip_parameters n p (if c = COMMA then i + 1 else i) (j + 1)
    else some (i, j, c :: p)

/-- The second loop of `get_nth_parameter`, which copies the bytes at
`cmd + j` up to the next comma or NUL; the result is the text copied.
Reading past the end of the array is `none`. -/
def copy_parameter : List Nat → Option (List Nat)
  | [] => none
  | c :: p =>
    if c ≠ COMMA ∧ c ≠ NUL then (copy_parameter p).map (c :: ·) else some []

/-- The function `get_nth_parameter` on the memory `cmd`. The outer `none` is
undefined behaviour, `some none` is the result `NULL`, and `some (some s)`
is success with the string `s` stored in `buf` (which takes `s.length + 1`
bytes of `buf`). The call of `memset` clears the first `sizeof(char *)` bytes
of `buf` and does not change the string stored afterwards. -/
def get_nth_parameter (cmd : List Nat) (n : Int) : Option (Option (List Nat)) :=
  if n ≥ GPS_INFO_SIZE then some none
  else
    match skip_parameters n cmd 0 0 with
    | none => none
    | some (i, j, p) =>
      if j ≥ GPS_INFO_SIZE ∨ i ≠ n then some none
      else (copy_parameter p).map some

/-- The function `get_utc_time`. -/
def get_utc_time (cmd : List Nat) : Option (Option (List Nat)) :=
  if is_gpgga cmd != true then some none else get_nth_parameter cmd 1

/-- The function `get_latitude`. -/
def get_latitude (cmd : List Nat) : Option (Option (List Nat)) :=
  if is_gpgga cmd != true then some none else get_nth_parameter cmd 2

/-- The function `get_ns_hemisphere`. -/
def get_ns_hemisphere (cmd : List Nat) : Option (Option (List Nat)) :=
  if is_gpgga cmd != true then some none else get_nth_parameter cmd 3

/-- The function `get_longitude`. -/
def get_longitude (cmd : List Nat) : Option (Option (List Nat)) :=
  if is_gpgga cmd != true then some none else get_nth_parameter cmd 4

/-- The function `get_ew_hemisphere`. -/
def get_ew_hemisphere (cmd : List Nat) : Option (Option (List Nat)) :=
  if is_gpgga cmd != true then some none else get_nth_parameter cmd 5

/-- The function `get_altitude`. -/
def get_altitude (cmd : List Nat) : Option (Option (List Nat)) :=
  if is_gpgga cmd != true then some none else get_nth_parameter cmd 9

/-! ## p2p_sender.c -/

/-- The maximal number of characters of one LoRa frame (`#define LORA_LIMIT 1`). -/
def LORA_LIMIT : Nat := 1

/-- The size of the packet buffers of `p2p_sender` (`#define BUF_SIZE 100`). -/
def BUF_SIZE : Nat := 100

/-- The loop of `str_reverse`, which swaps `str[i]` and `str[len - i - 1]`
for `i < len / 2`; the first argument bounds the number of iterations left. -/
def str_reverse_loop (len : Nat) : Nat → Nat → List Nat → List Nat
  | 0, _, str => str
  | fuel + 1, i, str =>
    if i < len / 2 then
      let ch := str.getD i 0
      str_reverse_loop len fuel (i + 1)
        ((str.set i (str.getD (len - i - 1) 0)).set (len - i - 1) ch)
    else str

/-- The function `str_reverse` on the memory `str`: the bytes before the
first NUL are reversed in place. The loop makes `len / 2` iterations. -/
def str_reverse (str : List Nat) : Option (List Nat) :=
  (strlen str).map fun len => str_reverse_loop len (len / 2) 0 str

/-- The first loop of `itoa`,
`for (i = 1, ten = 10; num / ten != 0; i++, ten *= 10) ;`
with the result `i`. A division by zero is `none`. The product wraps
around, and `ten` is zero after 31 multiplications at the latest, so that 32
iterations are always enough. -/
def itoa_count (num : Int) : Nat → Nat → Int → Option Nat
  | 0, _, _ => none
  | fuel + 1, i, ten =>
    if ten = 0 then none
    else if Int.tdiv num ten ≠ 0 then itoa_count num fuel (i + 1) (wrap_int (ten * 10))
    else some i

/-- The second loop of `itoa`,
`for (j = 0, ten = 1; j < i; j++, ten *= 10) str[j] = '0' + (num / ten) % 10;`
with the first argument the number `i - j` of characters left to write. -/
def itoa_digits (num : Int) : Nat → Int → Option (List Nat)
  | 0, _ => some []
  | k + 1, ten =>
    if ten = 0 then none
    else (itoa_digits num k (wrap_int (ten * 10))).map
      (to_char (48 + Int.tmod (Int.tdiv num ten) 10) :: ·)

/-- The function `itoa`: the bytes it leaves in `str`, the terminator
included. -/
def itoa (num : Int) : Option (List Nat) := do
  let i ← itoa_count num 32 1 10
  let digits ← itoa_digits num i 1
  str_reverse (digits ++ [NUL])

/-- The size of the local array `str` of `p2p_test_packet`. -/
def STR_SIZE : Nat := 20

/-- One step of `p2p_test_packet`: a field is read into `str`, copied to the
end of the packet and followed by the separator `sep`,
`if (get(gps_info, str) == NULL) return NULL;
len += strlen(strcpy(packet + len, str)); packet[len++] = sep; packet[len] = 0;`.
`field` is the result of the getter and `size` the size of the array that
holds the packet. A field that does not fit in `str`, or a packet that does
not fit in its array, is undefined behaviour. -/
def append_field (size : Nat) (field : Option (Option (List Nat))) (sep : Nat)
    (packet : List Nat) : Option (Option (List Nat)) :=
  match field with
  | none => none
  | some none => some none
  | some (some str) =>
    if str.length + 1 ≤ STR_SIZE ∧ packet.length + str.length + 2 ≤ size then
      some (some (packet ++ str ++ [sep]))
    else none

/-- The function `p2p_test_packet`, for a packet array of `size` bytes. The
outer `none` is undefined behaviour, `some none` the result `NULL` and
`some (some packet)` the text of the packet, stored NUL-terminated. -/
def p2p_test_packet (size : Nat) (seq : Int) (gps_info : List Nat) :
    Option (Option (List Nat)) := do
  let str ← itoa seq
  let len ← strlen str
  if str.length ≤ STR_SIZE ∧ len + 2 ≤ size then
    let p0 : List Nat := str.take len ++ [COMMA]
    match append_field size (get_latitude gps_info) COMMA p0 with
    | some (some p1) =>
      match append_field size (get_ns_hemisphere gps_info) COMMA p1 with
      | some (some p2) =>
        match append_field size (get_longitude gps_info) COMMA p2 with
        | some (some p3) =>
          match append_field size (get_ew_hemisphere gps_info) COMMA p3 with
          | some (some p4) => append_field size (get_altitude gps_info) NEWLINE p4
          | r => r
        | r => r
      | r => r
    | r => r
  else none

/-- What `p2p_send_packet` asks of the serial port. -/
inductive Effect where
  | change_vmin (vmin : Nat)
  | write (bytes : List Nat)
deriving DecidableEq, Repr

/-- The size of the local array `lora_packet` of `p2p_send_packet`. -/
def LORA_PACKET_SIZE : Nat := 10

/-- The characters `strncpy(dest, src, n)` copies from `src`: at most `n`,
up to the first NUL. Reading past the end of the array is `none`. -/
def strncpy_chars : Nat → List Nat → Option (List Nat)
  | 0, _ => some []
  | _ + 1, [] => none
  | n + 1, c :: src =>
    if c = NUL then some [] else (strncpy_chars n src).map (c :: ·)

/-- The array `lora_packet` after `memset(lora_packet, 0, sizeof(lora_packet))`
and `strncpy(lora_packet, src, limit)`. `strncpy` writes exactly `limit`
bytes, so that a `limit` above the size of the array is undefined behaviour. -/
def lora_packet (limit : Nat) (src : List Nat) : Option (List Nat) :=
  if limit ≤ LORA_PACKET_SIZE then
    (strncpy_chars limit src).map fun chars =>
      chars ++ List.replicate (LORA_PACKET_SIZE - chars.length) NUL
  else none

/-- The loop of `p2p_send_packet`, with `len` the value of `strlen(packet)`
and the first argument a bound on the number of iterations. The result is the
list of the calls made on the serial port and the final value of `cnt`;
`none` is undefined behaviour or a loop that does not end within the bound.
The calls are taken to return, and the loop does not look at what they
return; `p2p_send_packet_port_loop` below shows the values returned. -/
def p2p_send_packet_loop (limit : Nat) (packet : List Nat) (len : Nat) :
    Nat → Nat → Option (List Effect × Nat)
  | 0, _ => none
  | fuel + 1, cnt =>
    if cnt < len then do
      let buf ← lora_packet limit (packet.drop cnt)
      let n ← strlen buf
      let (effects, ret) ← p2p_send_packet_loop limit packet len fuel (cnt + limit)
      some (Effect.change_vmin n :: Effect.write (buf.take n) :: effects, ret)
    else some ([], cnt)

/-- The function `p2p_send_packet` with `LORA_LIMIT` as the parameter
`limit`. With `limit ≥ 1` the loop makes at most `strlen(packet)` iterations. -/
def p2p_send_packet (limit : Nat) (packet : List Nat) : Option (List Effect × Nat) := do
  let len ← strlen packet
  p2p_send_packet_loop limit packet len (len + 1) 0

/-- The frames written on the serial port, in the order of the calls. -/
def frames_written : List Effect → List (List Nat)
  | [] => []
  | Effect.write bytes :: effects => bytes :: frames_written effects
  | Effect.change_vmin _ :: effects => frames_written effects

/-! ## io_ops.c -/

/-- The call `read(fd, buf + i, 1)` of `read_line` on the bytes `fd` still to
come from the descriptor: the next byte is stored in `buf[i]`; when there is
none, `read` stores nothing. A call interrupted by a signal is tried again,
which the model does not show. -/
def read_byte (fd : List Nat) (buf : List Nat) (i : Nat) : List Nat × List Nat :=
  match fd with
  | [] => (buf, [])
  | c :: fd => (buf.set i c, fd)

/-- The loop of `read_line`,
`for (i = 0; i < size - 1; i++) { read(fd, buf + i, 1); if (buf[i] == '\n') break; }`
with the first argument the number `size - 1 - i` of iterations left. The
result is `i`, the buffer and the bytes still to come. -/
def read_line_loop : Nat → Nat → List Nat → List Nat → Nat × List Nat × List Nat
  | 0, i, buf, fd => (i, buf, fd)
  | k + 1, i, buf, fd =>
    let r := read_byte fd buf i
    if r.1.getD i 0 = NEWLINE then (i, r.1, r.2)
    else read_line_loop k (i + 1) r.1 r.2

/-- The function `read_line` for a buffer `buf` of at least `size` bytes and
at least one byte (a shorter one is `none`). The result is the value
returned, the buffer and the bytes still to come. -/
def read_line (fd : List Nat) (buf : List Nat) (size : Nat) :
    Option (Int × List Nat × List Nat) :=
  if size ≤ buf.length ∧ 1 ≤ buf.length then
    let r := read_line_loop (size - 1) 0 buf fd
    if r.2.1.getD r.1 0 ≠ NEWLINE then some (-1, r.2.1, r.2.2)
    else some (r.1, r.2.1.set r.1 NUL, r.2.2)
  else none

/-- The number `strtod` reads from a non-empty text made of decimal digits
only; `none` for any other text, which this development does not use. -/
def strtod_digits (s : List Nat) : Option Nat :=
  if s = [] then none
  else s.foldl (fun acc d => acc.bind fun v =>
    if 48 ≤ d ∧ d ≤ 57 then some (v * 10 + (d - 48)) else none) (some 0)

/-! ## Fields of a text -/

/-- The comma-separated fields of a text, in order; a text without comma is
one field, and fields are counted from 0. -/
def split_fields : List Nat → List (List Nat)
  | [] => [[]]
  | c :: s =>
    if c = COMMA then [] :: split_fields s
    else
      match split_fields s with
      | [] => [[c]]
      | f :: fs => (c :: f) :: fs

/-! ## Calls on the serial port -/

/-- The two calls `p2p_send_packet` makes for one frame, in their order:
`change_vmin` with the length of the frame, then `write` with the frame. -/
def frame_calls (frame : List Nat) : List Effect :=
  [Effect.change_vmin frame.length, Effect.write frame]

/-! ## serial_port_config.c -/

/-- The status `OK` of `header.h`. -/
def OK : Int := 0

/-- The status `ERROR` of `header.h`. -/
def ERROR : Int := -1

/-- What the terminal driver answers during one call of `change_vmin`:
whether the first `tcgetattr`, the `tcsetattr` and the second `tcgetattr`
succeed, and the value of `c_cc[VMIN]` that the second `tcgetattr` reads
back. -/
structure Termios where
  tcgetattr_first : Bool
  tcsetattr : Bool
  tcgetattr_second : Bool
  vmin : Int
deriving DecidableEq, Repr

/-- The function `change_vmin`. When the first `tcgetattr` fails the process
exits, which is `none`; otherwise the result is `OK` or `ERROR`. -/
def change_vmin (t : Termios) (vmin : Int) : Option Int :=
  if t.tcgetattr_first = false then none
  else if t.tcsetattr = false then some ERROR
  else if t.tcgetattr_second = false then some ERROR
  else if t.vmin ≠ vmin then some ERROR
  else some OK

/-- A call made on the serial port, with the value it returned; for
`change_vmin` the value `none` says that the process exited in the call. -/
inductive PortCall where
  | change_vmin (vmin : Nat) (ret : Option Int)
  | write (bytes : List Nat) (ret : Int)
deriving DecidableEq, Repr

/-- What the serial port answers for one frame: the answers of the terminal
driver to `change_vmin` and the value returned by `write`. -/
structure PortAnswer where
  termios : Termios
  write_ret : Int
deriving DecidableEq, Repr

/-- The loop of `p2p_send_packet` on a serial port that answers `port k` for
the frame number `k`. The values returned by `change_vmin` and by `write` are
recorded in the calls; the loop itself does not look at them. The result is
the list of calls and the value returned, `none` when the process exited in
`change_vmin`. -/
def p2p_send_packet_port_loop (port : Nat → PortAnswer) (limit : Nat) (packet : List Nat)
    (len : Nat) : Nat → Nat → Nat → Option (List PortCall × Option Nat)
  | 0, _, _ => none
  | fuel + 1, cnt, k =>
    if cnt < len then do
      let buf ← lora_packet limit (packet.drop cnt)
      let n ← strlen buf
      match change_vmin (port k).termios n with
      | none => some ([PortCall.change_vmin n none], none)
      | some r =>
        let (calls, ret) ← p2p_send_packet_port_loop port limit packet len fuel
          (cnt + limit) (k + 1)
        some (PortCall.change_vmin n (some r) ::
          PortCall.write (buf.take n) (port k).write_ret :: calls, ret)
    else some ([], some cnt)

/-- The function `p2p_send_packet` on a serial port that answers `port k` for
the frame number `k`. -/
def p2p_send_packet_port (port : Nat → PortAnswer) (limit : Nat) (packet : List Nat) :
    Option (List PortCall × Option Nat) := do
  let len ← strlen packet
  p2p_send_packet_port_loop port limit packet len (len + 1) 0 0

/-- The calls of a list without the values they returned. -/
def calls_effects : List PortCall → List Effect
  | [] => []
  | PortCall.change_vmin n _ :: calls => Effect.change_vmin n :: calls_effects calls
  | PortCall.write bytes _ :: calls => Effect.write bytes :: calls_effects calls

/-! ## The receive path of main -/

/-- The size of the array `param` of `main` and of `get_gps_info`. -/
def PARAM_SIZE : Nat := 20

/-- The result of a field getter that stores its string in an array of `size`
bytes: a string that does not fit, terminator included, is undefined
behaviour. -/
def stored_in (size : Nat) (r : Option (Option (List Nat))) : Option (Option (List Nat)) :=
  match r with
  | some (some s) => if s.length + 1 ≤ size then some (some s) else none
  | r => r

/-- One iteration of the loop of `main` up to the update of the counters:
`read_line` on the bytes `fd` to come from the radio, `is_complete_packet`,
`get_nth_parameter` for the fields 0, 1, 3 and 5 into `param`, and the update.
`strtod` gives the `long` that `sequence = strtod(param, NULL)` stores. The
result is the counters, the buffer and the bytes still to come; the rest of
the iteration does not change the counters. -/
def main_receive (strtod : List Nat → Int) (fd buf : List Nat) (w : Window) :
    Option (Window × List Nat × List Nat) :=
  match read_line fd buf 100 with
  | none => none
  | some (r, buf, fd) =>
    if r < 0 then some (w, buf, fd)
    else
      match is_complete_packet buf with
      | none => none
      | some c =>
        if c < 0 then some (w, buf, fd)
        else
          match stored_in PARAM_SIZE (get_nth_parameter buf 0) with
          | none => none
          | some none => some (w, buf, fd)
          | some (some p0) =>
            match stored_in PARAM_SIZE (get_nth_parameter buf 1) with
            | none => none
            | some none => some (w, buf, fd)
            | some (some _) =>
              match stored_in PARAM_SIZE (get_nth_parameter buf 3) with
              | none => none
              | some none => some (w, buf, fd)
              | some (some _) =>
                match stored_in PARAM_SIZE (get_nth_parameter buf 5) with
                | none => none
                | some none => some (w, buf, fd)
                | some (some _) => some (main_accept (strtod p0) w, buf, fd)

/-- An event of the receiver: a packet accepted with its sequence number, or
the alarm. -/
inductive Event where
  | accept (sequence : Int)
  | timer
deriving DecidableEq, Repr

/-- The sequence number of an accepted packet is a non-negative value of
`int`; nothing is asked of the alarm. -/
def Event.in_int_range : Event → Bool
  | Event.accept sequence => decide (0 ≤ sequence ∧ sequence ≤ INT_MAX)
  | Event.timer => true

/-- The counters after one event, handled as a whole. -/
def main_event (w : Window) : Event → Window
  | Event.accept sequence => main_accept sequence w
  | Event.timer =>
    match sig_alrm SIGALRM true w with
    | some (_, w2) => w2
    | none => w

/-- The counters after a list of events, handled one after the other. -/
def main_events (events : List Event) (w : Window) : Window :=
  events.foldl main_event w

/-- The sequence numbers of the packets accepted since the most recent alarm,
given those accepted before the events. -/
def accepted_since_timer (events : List Event) (before : List Int) : List Int :=
  events.foldl (fun acc e =>
    match e with
    | Event.accept sequence => acc ++ [sequence]
    | Event.timer => []) before

/-! ## get_gps_info -/

/-- The structure `gps_info`, with `D` for the type `double`. -/
structure gps_info (D : Type) where
  utc_time : D
  latitude : D
  ns_hemisphere : Nat
  longitude : D
  ew_hemisphere : Nat
  altitude : D
deriving DecidableEq, Repr

/-- The character `param[0]` of a string stored in `param`: its first
character, or the terminator when it is empty. -/
def first_char (param : List Nat) : Nat := param.headD NUL

/-- The function `get_gps_info`, with `strtod` for the library function of
that name (called with a null end pointer). The outer `none` is undefined
behaviour, `some none` the result `NULL`, and `some (some g)` success with
the structure `g`. -/
def get_gps_info {D : Type} (strtod : List Nat → D) (cmd : List Nat) :
    Option (Option (gps_info D)) :=
  match stored_in PARAM_SIZE (get_utc_time cmd) with
  | none => none
  | some none => some none
  | some (some time) =>
    match stored_in PARAM_SIZE (get_latitude cmd) with
    | none => none
    | some none => some none
    | some (some lat) =>
      match stored_in PARAM_SIZE (get_ns_hemisphere cmd) with
      | none => none
      | some none => some none
      | some (some ns) =>
        match stored_in PARAM_SIZE (get_longitude cmd) with
        | none => none
        | some none => some none
        | some (some lon) =>
          match stored_in PARAM_SIZE (get_ew_hemisphere cmd) with
          | none => none
          | some none => some none
          | some (some ew) =>
            match stored_in PARAM_SIZE (get_altitude cmd) with
            | none => none
            | some none => some none
            | some (some alt) =>
              some (some
                { utc_time := strtod time
                  latitude := strtod lat
                  ns_hemisphere := first_char ns
                  longitude := strtod lon
                  ew_hemisphere := first_char ew
                  altitude := strtod alt })

/-! ## read_raw_gps -/

/-- The carriage return, written `'\r'` in the sources. -/
def CARRIAGE_RETURN : Nat := 13

/-- The function `read_a_char` on the bytes `fd` still to come from the
descriptor: the byte read and the bytes left. When there is no byte to read,
`read` stores nothing in the local `ch`, whose value is then not determined:
that is `none`. -/
def read_a_char : List Nat → Option (Nat × List Nat)
  | [] => none
  | c :: fd => some (c, fd)

/-- The loop of `read_raw_gps`,
`while ((buf[cnt] = read_a_char(fd)) != '\n' && cnt < GPS_INFO_SIZE)
   { if (buf[cnt] == '\r') buf[cnt] = '\0'; cnt++; }`
on an array `buf`. The byte is stored in `buf[cnt]` before `cnt` is compared
with `GPS_INFO_SIZE`; a store outside the array is `none`. The result is
`cnt`, the array and the bytes still to come. The condition is evaluated at
most `GPS_INFO_SIZE + 1` times, which the first argument counts. -/
def read_raw_gps_loop : Nat → Nat → List Nat → List Nat → Option (Nat × List Nat × List Nat)
  | 0, _, _, _ => none
  | fuel + 1, cnt, buf, fd =>
    match read_a_char fd with
    | none => none
    | some (c, fd) =>
      if cnt < buf.length then
        if c ≠ NEWLINE ∧ cnt < GPS_INFO_SIZE then
          read_raw_gps_loop fuel (cnt + 1)
            (buf.set cnt (if c = CARRIAGE_RETURN then NUL else c)) fd
        else some (cnt, buf.set cnt c, fd)
      else none

/-- The function `read_raw_gps` on an array `buf`: the value returned, the
array and the bytes still to come. `memset` clears the first `GPS_INFO_SIZE`
bytes, and after the loop `buf[cnt]` is set to NUL; a store outside the array
is `none`. -/
def read_raw_gps (fd buf : List Nat) : Option (Int × List Nat × List Nat) :=
  if GPS_INFO_SIZE ≤ buf.length then
    match read_raw_gps_loop (GPS_INFO_SIZE + 1) 0
        (List.replicate GPS_INFO_SIZE NUL ++ buf.drop GPS_INFO_SIZE) fd with
    | none => none
    | some (cnt, buf, fd) =>
      if cnt < buf.length then
        some (if cnt ≥ GPS_INFO_SIZE then -1 else (cnt : Int), buf.set cnt NUL, fd)
      else none
  else none

/-! ## p2p_sender -/

/-- One step of `p2p_test_packet`, as `append_field`, with the text that the
step leaves in `packet`: `(false, packet)` when the getter returns `NULL`
(the function returns `NULL` and `packet` keeps the text written so far), and
`(true, packet ++ str ++ [sep])` otherwise. -/
def append_field_buf (size : Nat) (field : Option (Option (List Nat))) (sep : Nat)
    (packet : List Nat) : Option (Bool × List Nat) :=
  match field with
  | none => none
  | some none => some (false, packet)
  | some (some str) =>
    if str.length + 1 ≤ STR_SIZE ∧ packet.length + str.length + 2 ≤ size then
      some (true, packet ++ str ++ [sep])
    else none

/-- The function `p2p_test_packet` with the text it leaves in `packet`, stored
NUL-terminated: `(true, text)` when it returns `packet`, and `(false, text)`
when it returns `NULL`, with `text` what was written before the getter that
failed. -/
def p2p_test_packet_buf (size : Nat) (seq : Int) (gps_info : List Nat) :
    Option (Bool × List Nat) := do
  let str ← itoa seq
  let len ← strlen str
  if str.length ≤ STR_SIZE ∧ len + 2 ≤ size then
    let p0 : List Nat := str.take len ++ [COMMA]
    match append_field_buf size (get_latitude gps_info) COMMA p0 with
    | some (true, p1) =>
      match append_field_buf size (get_ns_hemisphere gps_info) COMMA p1 with
      | some (true, p2) =>
        match append_field_buf size (get_longitude gps_info) COMMA p2 with
        | some (true, p3) =>
          match append_field_buf size (get_ew_hemisphere gps_info) COMMA p3 with
          | some (true, p4) => append_field_buf size (get_altitude gps_info) NEWLINE p4
          | r => r
        | r => r
      | r => r
    | r => r
  else none

/-- What `p2p_sender` has done so far: the variable `seq`, the strings it has
handed to `p2p_send_packet`, the calls made on the LoRa port, the bytes still
to come from the GPS port, and whether `error_dump` has ended the process. -/
structure Sender where
  seq : Int
  sent : List (List Nat)
  calls : List Effect
  gps_fd : List Nat
  exited : Bool
deriving DecidableEq, Repr

/-- The state in which `p2p_sender` enters its loop. -/
def Sender.initial (gps_fd : List Nat) : Sender :=
  { seq := 0, sent := [], calls := [], gps_fd := gps_fd, exited := false }

/-- One execution of the body of the inner loop of `p2p_sender`,
`if (read_raw_gps(gps_fd, gps_info) < 0) error_dump(..);
 if (is_gpgga(gps_info) == TRUE)
   { p2p_test_packet(buf, seq++, gps_info); p2p_send_packet(lora_fd, buf); .. }`.
The value returned by `p2p_test_packet` is not looked at. `gps_info` is
cleared by `read_raw_gps` and `buf` is written by `p2p_test_packet` before it
is read, so that what the two arrays held before does not matter;
`p2p_send_packet` reads `buf` up to its terminator only. -/
def p2p_sender_body (st : Sender) : Option Sender :=
  if st.exited then some st
  else
    match read_raw_gps st.gps_fd (List.replicate BUF_SIZE NUL) with
    | none => none
    | some (ret, gps_info, fd) =>
      if ret < 0 then some { st with gps_fd := fd, exited := true }
      else if is_gpgga gps_info = true then
        match p2p_test_packet_buf BUF_SIZE st.seq gps_info with
        | none => none
        | some (_, text) =>
          match p2p_send_packet LORA_LIMIT (text ++ [NUL]) with
          | none => none
          | some (effects, _) =>
            some { seq := wrap_int (st.seq + 1), sent := st.sent ++ [text],
                   calls := st.calls ++ effects, gps_fd := fd, exited := false }
      else some { st with gps_fd := fd }

/-- The first `k` executions of the body of the inner loop of `p2p_sender`,
called with a positive `num` (`main` passes 10): the outer loop does not end
and `seq` is kept from one round of the inner loop to the next. -/
def p2p_sender : Nat → List Nat → Option Sender
  | 0, gps_fd => some (Sender.initial gps_fd)
  | k + 1, gps_fd => (p2p_sender k gps_fd).bind p2p_sender_body

/-! ## get_distance -/

/-- The constant `PI` of `gps_analyzer.h`, 3.14159. -/
def PI {D : Type} [Field D] : D := 314159 / 100000

/-- The constant `EARTH_RADIUS` of `gps_analyzer.h`, 6378.137. -/
def EARTH_RADIUS {D : Type} [Field D] : D := 6378137 / 1000

/-- The function `rad`, `d * PI / 180.0`. -/
def rad {D : Type} [Field D] (d : D) : D := d * PI / 180

/-- The function `get_distance`, with a field `D` for the type `double`, whose
operations are taken without rounding, and `sin`, `cos`, `asin` and `sqrt`
for the functions of `math.h`; `pow(x, 2)` is the square. -/
def get_distance {D : Type} [Field D] (sin cos asin sqrt : D → D)
    (lat1 lng1 lat2 lng2 : D) : D :=
  let radLat1 := rad lat1
  let radLat2 := rad lat2
  let a := radLat1 - radLat2
  let b := rad lng1 - rad lng2
  let s := 2 * asin (sqrt (sin (a / 2) ^ 2 + cos radLat1 * cos radLat2 * sin (b / 2) ^ 2))
  s * EARTH_RADIUS * 10

/-- The haversine formula as the specification words it, for points given in
degrees: `radius * 2 * asin(sqrt(sin^2(dlat/2) + cos(lat1) * cos(lat2) *
sin^2(dlng/2)))`, the angles being converted to radians with the number `pi`.
This definition does not come from the sources. -/
def haversine_spec {D : Type} [Field D] (pi : D) (sin cos asin sqrt : D → D) (radius : D)
    (lat1 lng1 lat2 lng2 : D) : D :=
  radius * (2 * asin (sqrt (sin ((lat1 * pi / 180 - lat2 * pi / 180) / 2) ^ 2 +
    cos (lat1 * pi / 180) * cos (lat2 * pi / 180) *
      sin ((lng1 * pi / 180 - lng2 * pi / 180) / 2) ^ 2)))

/-! ## The update of the counters, statement by statement -/

/-- The statement `if (first < 0) first = sequence;` of `main`. -/
def main_set_first (sequence : Int) (w : Window) : Window :=
  { w with first := if w.first < 0 then wrap_int sequence else w.first }

/-- The statement `last = sequence;` of `main`. -/
def main_set_last (sequence : Int) (w : Window) : Window :=
  { w with last := wrap_int sequence }

/-- The statement `cnt++;` of `main`. -/
def main_increment_cnt (w : Window) : Window :=
  { w with cnt := wrap_int (w.cnt + 1) }

/-- The three statements of `main` that update the counters for an accepted
packet, in their order. -/
def main_accept_statements (sequence : Int) : List (Window → Window) :=
  [main_set_first sequence, main_set_last sequence, main_increment_cnt]

/-- The update of the counters for an accepted packet when the alarm signal
is delivered after the first `k` of the three statements (`k = 0`: before the
update, `k = 3`: after it). `main` installs `sig_alrm` with `signal` and does
not block the signal anywhere, so that the handler runs at that point and the
remaining statements follow. The result is the rate that the handler prints
and the counters after the last statement; `none` is the exit of the process
in the handler. -/
def main_accept_alarm (k : Nat) (sequence : Int) (w : Window) : Option (Option ℚ × Window) :=
  match sig_alrm SIGALRM true
      (((main_accept_statements sequence).take k).foldl (fun w f => f w) w) with
  | none => none
  | some (rate, w2) =>
    some (rate, ((main_accept_statements sequence).drop k).foldl (fun w f => f w) w2)

/-! # Theorems -/

/-! ## Machine integers -/

theorem wrap_int_of_range (x : Int) (h1 : -2147483648 ≤ x) (h2 : x < 2147483648) :
    wrap_int x = x := by
  unfold wrap_int
  omega

/-! ## The validation gate -/

theorem count_commas_cons (c : Nat) (p : List Nat) (cnt : Int) :
    count_commas (c :: p) cnt =
      if c = 0 then some cnt
      else count_commas p (if c = 44 then wrap_int (cnt + 1) else cnt) := rfl

/-- The scan stops at the terminator with the number of commas before it. -/
theorem count_commas_append (line rest : List Nat) (cnt : Int)
    (hnul : ∀ c ∈ line, c ≠ 0) (h0 : 0 ≤ cnt)
    (hlen : cnt + line.length < 2147483648) :
    count_commas (line ++ 0 :: rest) cnt = some (cnt + (line.count 44 : Nat)) := by
  induction line generalizing cnt with
  | nil => simp [count_commas_cons]
  | cons c line ih =>
    have hc : c ≠ 0 := hnul c (List.mem_cons_self _ _)
    have hl : ∀ d ∈ line, d ≠ 0 := fun d hd => hnul d (List.mem_cons_of_mem _ hd)
    simp only [List.length_cons, Nat.cast_add, Nat.cast_one] at hlen
    rw [List.cons_append, count_commas_cons, if_neg hc]
    by_cases h44 : c = 44
    · have hw : wrap_int (cnt + 1) = cnt + 1 := wrap_int_of_range _ (by omega) (by omega)
      rw [if_pos h44, hw, ih (cnt + 1) hl (by omega) (by omega), h44,
        List.count_cons_self]
      congr 1
      push_cast
      omega
    · rw [if_neg h44, ih cnt hl h0 (by omega), List.count_cons_of_ne (Ne.symm h44)]

/-- The value of `is_complete_packet` on a NUL-terminated line. -/
theorem is_complete_packet_append (line rest : List Nat)
    (hnul : ∀ c ∈ line, c ≠ 0) (hlen : line.length < 2147483648) :
    is_complete_packet (line ++ 0 :: rest) =
      some (if line.count 44 = 5 then 5 else -1) := by
  have h := count_commas_append line rest 0 hnul (le_refl _) (by omega)
  unfold is_complete_packet
  rw [h]
  by_cases h5 : line.count 44 = 5
  · simp [h5]
  · have h5i : ¬ ((line.count 44 : Nat) : Int) = 5 := by exact_mod_cast h5
    simp [h5, h5i]

/-- C1. On a NUL-terminated line (of a length an `int` can index, followed
by any bytes), `is_complete_packet` returns 5 when the line has exactly 5
commas and -1 otherwise, whatever its other characters are. -/
theorem is_complete_packet_iff (line rest : List Nat)
    (hnul : ∀ c ∈ line, c ≠ NUL) (hlen : (line.length : Int) ≤ INT_MAX) :
    is_complete_packet (line ++ NUL :: rest) =
        some (if line.count COMMA = 5 then 5 else -1) ∧
      (is_complete_packet (line ++ NUL :: rest) = some 5 ↔ line.count COMMA = 5) := by
  have hval := is_complete_packet_append line rest hnul (by unfold INT_MAX at hlen; omega)
  simp only [NUL, COMMA]
  refine ⟨hval, ?_⟩
  rw [hval]
  by_cases h5 : line.count 44 = 5 <;> simp [h5]

/-- Witness of C1: the line `7,a,N,b,E,c` followed by stale bytes. -/
theorem is_complete_packet_iff_witness :
    is_complete_packet ([55, 44, 97, 44, 78, 44, 98, 44, 69, 44, 99] ++ NUL :: [44, 44]) =
      some 5 :=
  ((is_complete_packet_iff [55, 44, 97, 44, 78, 44, 98, 44, 69, 44, 99] [44, 44]
    (by decide) (by decide)).2).2 (by decide)

/-! ## The measurement window -/

theorem main_accept_all_cons (s : Int) (seqs : List Int) (w : Window) :
    main_accept_all (s :: seqs) w = main_accept_all seqs (main_accept s w) := rfl

theorem main_accept_all_cnt (seqs : List Int) (w : Window) (h0 : 0 ≤ w.cnt)
    (hlen : w.cnt + seqs.length < 2147483648) :
    (main_accept_all seqs w).cnt = w.cnt + seqs.length := by
  induction seqs generalizing w with
  | nil => simp [main_accept_all]
  | cons s seqs ih =>
    simp only [List.length_cons, Nat.cast_add, Nat.cast_one] at hlen
    have hw : (main_accept s w).cnt = w.cnt + 1 :=
      wrap_int_of_range _ (by omega) (by omega)
    rw [main_accept_all_cons, ih _ (by omega) (by omega), hw, List.length_cons]
    push_cast
    omega

theorem main_accept_all_first (seqs : List Int) (w : Window) (h0 : 0 ≤ w.first) :
    (main_accept_all seqs w).first = w.first := by
  induction seqs generalizing w with
  | nil => rfl
  | cons s seqs ih =>
    have hw : (main_accept s w).first = w.first := by
      simp only [main_accept]
      rw [if_neg (by omega)]
    rw [main_accept_all_cons, ih _ (by omega), hw]

theorem main_accept_all_last (seqs : List Int) (w : Window) (hne : seqs ≠ []) :
    (main_accept_all seqs w).last = wrap_int (seqs.getLast hne) := by
  induction seqs generalizing w with
  | nil => exact absurd rfl hne
  | cons s seqs ih =>
    rw [main_accept_all_cons]
    cases seqs with
    | nil => rfl
    | cons t seqs => rw [ih _ (List.cons_ne_nil _ _), List.getLast_cons (List.cons_ne_nil _ _)]

/-- C2, as amended. When a non-empty list of at most `INT_MAX` sequence
numbers, each a non-negative value of `int`, is accepted without an alarm in
between, starting from the initial counters, then `cnt` is the length of the
list, `first` its first element and `last` its last element; for `[5, 6, 7]`
they are 3, 5 and 7. -/
theorem window_accounting (seqs : List Int) (hne : seqs ≠ [])
    (hrange : ∀ s ∈ seqs, 0 ≤ s ∧ s ≤ INT_MAX)
    (hlen : (seqs.length : Int) ≤ INT_MAX) :
    (main_accept_all seqs Window.initial).cnt = seqs.length ∧
      (main_accept_all seqs Window.initial).first = seqs.head hne ∧
      (main_accept_all seqs Window.initial).last = seqs.getLast hne ∧
      main_accept_all [5, 6, 7] Window.initial = { cnt := 3, first := 5, last := 7 } := by
  have hwrap : ∀ s ∈ seqs, wrap_int s = s := fun s hs =>
    wrap_int_of_range s (by have := (hrange s hs).1; omega)
      (by have := (hrange s hs).2; unfold INT_MAX at this; omega)
  refine ⟨?_, ?_, ?_, by decide⟩
  · have h := main_accept_all_cnt seqs Window.initial (le_refl _)
      (by unfold INT_MAX at hlen; simp only [Window.initial]; omega)
    rw [h]
    simp [Window.initial]
  · cases seqs with
    | nil => exact absurd rfl hne
    | cons s seqs =>
      have hs := hrange s (List.mem_cons_self _ _)
      have hf : (main_accept s Window.initial).first = s := by
        simp only [main_accept, Window.initial]
        rw [if_pos (by decide)]
        exact hwrap s (List.mem_cons_self _ _)
      rw [main_accept_all_cons, main_accept_all_first _ _ (by rw [hf]; exact hs.1), hf]
      rfl
  · rw [main_accept_all_last seqs _ hne]
    exact hwrap _ (List.getLast_mem hne)

/-- Witness of C2: the sequence numbers 5, 6, 7. -/
theorem window_accounting_witness :
    (main_accept_all [5, 6, 7] Window.initial).cnt = 3 ∧
      (main_accept_all [5, 6, 7] Window.initial).first = 5 ∧
      (main_accept_all [5, 6, 7] Window.initial).last = 7 :=
  have h := window_accounting [5, 6, 7] (by decide) (by decide) (by decide)
  ⟨h.1, h.2.1, h.2.2.1⟩

/-- C2 as stated fails for the sequence numbers 3000000000 and 7, which are
non-negative: the line `3000000000,1,N,2,E,3` is accepted, `sequence` is the
`long` 3000000000, and the `int` counters `first` and `last` receive its low
32 bits, -1294967296. After the second packet `first` is 7 and not
3000000000. -/
theorem window_accounting_beyond_int :
    (main_receive (fun s => Int.ofNat ((strtod_digits s).getD 0))
        ([51, 48, 48, 48, 48, 48, 48, 48, 48, 48, 44, 49, 44, 78, 44, 50, 44, 69, 44, 51] ++
          NEWLINE :: [])
        (List.replicate 100 0) Window.initial).map Prod.fst =
      some { cnt := 1, first := -1294967296, last := -1294967296 } ∧
    main_accept_all [3000000000] Window.initial =
      { cnt := 1, first := -1294967296, last := -1294967296 } ∧
    main_accept_all [3000000000, 7] Window.initial = { cnt := 2, first := 7, last := 7 } := by
  decide

/-- C3. A first accepted packet that carries the sequence value -1 leaves
`first` at -1, and the next accepted packet of the same run, carrying 5,
changes `first` to 5. Both lines, `-1,1,N,2,E,3` and `5,1,N,2,E,3`, pass
`is_complete_packet`. -/
theorem first_overwritten_after_negative :
    is_complete_packet [45, 49, 44, 49, 44, 78, 44, 50, 44, 69, 44, 51, 0] = some 5 ∧
      is_complete_packet [53, 44, 49, 44, 78, 44, 50, 44, 69, 44, 51, 0] = some 5 ∧
      (main_accept (-1) Window.initial).first = -1 ∧
      (main_accept 5 (main_accept (-1) Window.initial)).first = 5 := by
  decide

/-! ## The alarm handler -/

theorem sig_alrm_eq (w : Window) :
    sig_alrm SIGALRM true w = some (some (prr w), Window.initial) := by
  simp [sig_alrm, Window.initial]

/-- C4. With `cnt = 19` the handler reports 100 when the C comparison
`last - first == cnt` holds and 19/20*100 = 95 otherwise. In terms of the
exact difference: it reports 100 when `last - first` is 19, and 95 when
`last - first` is another `int` value, as for `first = 100` and
`last = 118`. -/
theorem off_by_one_rule (w : Window) (hcnt : w.cnt = TIMER - 1) :
    sig_alrm SIGALRM true w =
        some (some (if wrap_int (w.last - w.first) = w.cnt then 100
          else (w.cnt : ℚ) / 20 * 100), Window.initial) ∧
      (w.cnt : ℚ) / 20 * 100 = 95 ∧
      (w.last - w.first = w.cnt →
        sig_alrm SIGALRM true w = some (some 100, Window.initial)) ∧
      (w.last - w.first ≠ w.cnt → INT_MIN ≤ w.last - w.first →
        w.last - w.first ≤ INT_MAX →
        sig_alrm SIGALRM true w = some (some 95, Window.initial)) ∧
      sig_alrm SIGALRM true { cnt := 19, first := 100, last := 118 } =
        some (some 95, Window.initial) := by
  have h19 : w.cnt = 19 := by rw [hcnt]; rfl
  have hrate : (w.cnt : ℚ) / 20 * 100 = 95 := by rw [h19]; norm_num
  have hall : sig_alrm SIGALRM true w =
      some (some (if wrap_int (w.last - w.first) = w.cnt then 100
        else (w.cnt : ℚ) / 20 * 100), Window.initial) := by
    rw [sig_alrm_eq]
    simp [prr, h19, TIMER]
  refine ⟨hall, hrate, ?_, ?_, ?_⟩
  · intro h
    have hw : wrap_int (w.last - w.first) = w.cnt := by
      rw [h, h19]; rfl
    rw [hall, if_pos hw]
  · intro h hmin hmax
    have hw : wrap_int (w.last - w.first) = w.last - w.first :=
      wrap_int_of_range _ (by unfold INT_MIN at hmin; omega) (by unfold INT_MAX at hmax; omega)
    rw [hall, hw, if_neg h, hrate]
  · rw [sig_alrm_eq]
    simp only [prr, TIMER, wrap_int]
    norm_num

/-- Witness of C4: 19 packets counted between the sequence numbers 100 and 118. -/
theorem off_by_one_rule_witness :
    sig_alrm SIGALRM true { cnt := 19, first := 100, last := 118 } =
      some (some 95, Window.initial) :=
  (off_by_one_rule { cnt := 19, first := 100, last := 118 } (by decide)).2.2.2.2

/-- C5. With more than 20 accepted packets the handler reports 100,
whatever `first` and `last` are. -/
theorem overrun_rule (w : Window) (hcnt : w.cnt > TIMER) :
    sig_alrm SIGALRM true w = some (some 100, Window.initial) := by
  rw [sig_alrm_eq]
  simp [prr, hcnt]

/-- Witness of C5: 21 packets and an arbitrary span. -/
theorem overrun_rule_witness :
    sig_alrm SIGALRM true { cnt := 21, first := 7, last := -3 } =
      some (some 100, Window.initial) :=
  overrun_rule { cnt := 21, first := 7, last := -3 } (by decide)

/-- C6. With `0 ≤ cnt ≤ 20` and `cnt ≠ 19` the handler reports the exact
rational `cnt / 20 * 100`, whatever `first` and `last` are; that is 100 for
20 packets and 0 for none. -/
theorem plain_rate (w : Window) (h0 : 0 ≤ w.cnt) (h20 : w.cnt ≤ TIMER)
    (h19 : w.cnt ≠ TIMER - 1) :
    sig_alrm SIGALRM true w = some (some ((w.cnt : ℚ) / 20 * 100), Window.initial) ∧
      (w.cnt = 20 → sig_alrm SIGALRM true w = some (some 100, Window.initial)) ∧
      (w.cnt = 0 → sig_alrm SIGALRM true w = some (some 0, Window.initial)) := by
  have hgt : ¬ (20 < w.cnt) := by unfold TIMER at h20; omega
  have hne : ¬ (w.cnt = 19) := by unfold TIMER at h19; omega
  have hval : sig_alrm SIGALRM true w =
      some (some ((w.cnt : ℚ) / 20 * 100), Window.initial) := by
    rw [sig_alrm_eq]
    simp [prr, hgt, hne, TIMER]
  refine ⟨hval, ?_, ?_⟩
  · intro h
    rw [hval, h]
    norm_num
  · intro h
    rw [hval, h]
    norm_num

/-- Witness of C6: a full run of 20 packets. -/
theorem plain_rate_witness :
    sig_alrm SIGALRM true { cnt := 20, first := 3, last := 40 } =
      some (some 100, Window.initial) :=
  (plain_rate { cnt := 20, first := 3, last := 40 } (by decide) (by decide) (by decide)).2.1 rfl

/-- C7. After the 19 packets with the consecutive sequence numbers
100, 101, ..., 118 were accepted from the initial counters, the counters are
`cnt = 19`, `first = 100`, `last = 118` and the handler reports 95, not 100. -/
theorem consecutive_19_reports_95 :
    main_accept_all (List.map Int.ofNat (List.range' 100 19)) Window.initial =
        { cnt := 19, first := 100, last := 118 } ∧
      sig_alrm SIGALRM true
          (main_accept_all (List.map Int.ofNat (List.range' 100 19)) Window.initial) =
        some (some 95, Window.initial) := by
  have h : main_accept_all (List.map Int.ofNat (List.range' 100 19)) Window.initial =
      { cnt := 19, first := 100, last := 118 } := by decide
  refine ⟨h, ?_⟩
  rw [h, sig_alrm_eq]
  simp only [prr, TIMER, wrap_int]
  norm_num

/-- C8. Whatever the counters are, the handler leaves them at their initial
values `cnt = 0`, `first = -1`, `last = -1`. -/
theorem sig_alrm_resets (w : Window) :
    (sig_alrm SIGALRM true w).map Prod.snd =
      some { cnt := 0, first := -1, last := -1 } := by
  rw [sig_alrm_eq]
  rfl

/-! ## C strings -/

theorem strlen_cons (c : Nat) (s : List Nat) :
    strlen (c :: s) = if c = 0 then some 0 else (strlen s).map (· + 1) := rfl

/-- The length of a NUL-free text followed by its terminator. -/
theorem strlen_append (s rest : List Nat) (hnul : ∀ c ∈ s, c ≠ 0) :
    strlen (s ++ 0 :: rest) = some s.length := by
  induction s with
  | nil => simp [strlen_cons]
  | cons c s ih =>
    have hc : c ≠ 0 := hnul c (List.mem_cons_self _ _)
    rw [List.cons_append, strlen_cons, if_neg hc,
      ih (fun d hd => hnul d (List.mem_cons_of_mem _ hd))]
    rfl

/-! ## Framing -/

theorem strncpy_chars_cons (n c : Nat) (src : List Nat) :
    strncpy_chars (n + 1) (c :: src) =
      if c = 0 then some [] else (strncpy_chars n src).map (c :: ·) := rfl

theorem strncpy_chars_append (n : Nat) (s rest : List Nat) (hnul : ∀ c ∈ s, c ≠ 0) :
    strncpy_chars n (s ++ 0 :: rest) = some (s.take n) := by
  induction n generalizing s with
  | zero => simp [strncpy_chars]
  | succ n ih =>
    cases s with
    | nil => simp [strncpy_chars, NUL]
    | cons c s =>
      have hc : c ≠ 0 := hnul c (List.mem_cons_self _ _)
      rw [List.cons_append, strncpy_chars_cons, if_neg hc,
        ih s (fun d hd => hnul d (List.mem_cons_of_mem _ hd))]
      rfl

/-- With a limit below the size of `lora_packet`, the array holds the next
`limit` characters of the text as a NUL-terminated string. -/
theorem lora_packet_append (limit : Nat) (s rest : List Nat) (hnul : ∀ c ∈ s, c ≠ 0)
    (hlimit : limit < LORA_PACKET_SIZE) :
    ∃ pad, lora_packet limit (s ++ 0 :: rest) = some (s.take limit ++ 0 :: pad) := by
  unfold LORA_PACKET_SIZE at hlimit
  have hlen : (s.take limit).length ≤ limit := by
    rw [List.length_take]
    exact Nat.min_le_left _ _
  refine ⟨List.replicate (9 - (s.take limit).length) 0, ?_⟩
  unfold lora_packet
  rw [if_pos (by unfold LORA_PACKET_SIZE; omega), strncpy_chars_append limit s rest hnul]
  have h10 : LORA_PACKET_SIZE - (s.take limit).length = (9 - (s.take limit).length) + 1 := by
    unfold LORA_PACKET_SIZE
    omega
  simp only [Option.map_some', h10, List.replicate_succ, NUL]

theorem p2p_send_packet_loop_frames (limit : Nat) (s rest : List Nat)
    (hnul : ∀ c ∈ s, c ≠ 0) (h1 : 1 ≤ limit) (hlimit : limit < LORA_PACKET_SIZE)
    (fuel cnt : Nat) (hfuel : s.length < cnt + fuel) (hpos : 1 ≤ fuel) :
    ∃ effects ret,
      p2p_send_packet_loop limit (s ++ 0 :: rest) s.length fuel cnt = some (effects, ret) ∧
        (frames_written effects).flatten = s.drop cnt := by
  induction fuel generalizing cnt with
  | zero => omega
  | succ fuel ih =>
    by_cases hc : cnt < s.length
    · obtain ⟨effects, ret, hrec, hfr⟩ := ih (cnt + limit) (by omega) (by omega)
      have hdrop : (s ++ 0 :: rest).drop cnt = s.drop cnt ++ 0 :: rest := by
        rw [List.drop_append_of_le_length (by omega)]
      have hnul2 : ∀ c ∈ s.drop cnt, c ≠ 0 := fun c hcm => hnul c (List.mem_of_mem_drop hcm)
      obtain ⟨pad, hbuf⟩ := lora_packet_append limit (s.drop cnt) rest hnul2 hlimit
      have hnul3 : ∀ c ∈ (s.drop cnt).take limit, c ≠ 0 :=
        fun c hcm => hnul2 c (List.mem_of_mem_take hcm)
      refine ⟨Effect.change_vmin ((s.drop cnt).take limit).length ::
        Effect.write ((s.drop cnt).take limit) :: effects, ret, ?_, ?_⟩
      · simp only [p2p_send_packet_loop, if_pos hc, hdrop, hbuf, Option.bind_eq_bind,
          Option.some_bind, strlen_append _ pad hnul3, hrec, List.take_left']
      · simp only [frames_written, List.flatten_cons, hfr]
        rw [← List.drop_drop, List.take_append_drop]
    · refine ⟨[], cnt, ?_, ?_⟩
      · simp only [p2p_send_packet_loop, if_neg hc]
      · simp only [frames_written, List.flatten_nil]
        rw [List.drop_eq_nil_of_le (by omega)]

/-- With a limit from 1 to 9, `p2p_send_packet` returns on a NUL-terminated
text, and the frames it writes, put together, are the text. -/
theorem p2p_send_packet_frames (limit : Nat) (s rest : List Nat)
    (hnul : ∀ c ∈ s, c ≠ 0) (h1 : 1 ≤ limit) (hlimit : limit < LORA_PACKET_SIZE) :
    ∃ effects ret,
      p2p_send_packet limit (s ++ 0 :: rest) = some (effects, ret) ∧
        (frames_written effects).flatten = s := by
  obtain ⟨effects, ret, hloop, hfr⟩ :=
    p2p_send_packet_loop_frames limit s rest hnul h1 hlimit (s.length + 1) 0
      (by omega) (by omega)
  refine ⟨effects, ret, ?_, ?_⟩
  · unfold p2p_send_packet
    simp only [strlen_append s rest hnul, Option.bind_eq_bind, Option.some_bind]
    exact hloop
  · rw [hfr, List.drop_zero]

/-- C10, as amended. For every NUL-free packet text and every frame limit
from 1 to 9 (the frame is staged in the 10-byte array `lora_packet`),
`p2p_send_packet` returns, and the frames it writes, concatenated in the
order of the writes, are the packet text, its last byte included. -/
theorem frames_reconstruct_packet (limit : Nat) (s rest : List Nat)
    (hnul : ∀ c ∈ s, c ≠ NUL) (h1 : 1 ≤ limit) (hlimit : limit < LORA_PACKET_SIZE) :
    ∃ effects ret,
      p2p_send_packet limit (s ++ NUL :: rest) = some (effects, ret) ∧
        (frames_written effects).flatten = s :=
  p2p_send_packet_frames limit s rest hnul h1 hlimit

/-- Witness of C10: the packet `42,a,N,b,E,c` with its newline, sent with the
default limit `LORA_LIMIT`, one byte for each frame. -/
theorem frames_reconstruct_packet_witness :
    ∃ effects ret,
      p2p_send_packet LORA_LIMIT
          ([52, 50, 44, 97, 44, 78, 44, 98, 44, 69, 44, 99, 10] ++ NUL :: [7, 7]) =
          some (effects, ret) ∧
        (frames_written effects).flatten =
          [52, 50, 44, 97, 44, 78, 44, 98, 44, 69, 44, 99, 10] :=
  frames_reconstruct_packet LORA_LIMIT [52, 50, 44, 97, 44, 78, 44, 98, 44, 69, 44, 99, 10]
    [7, 7] (by decide) (by decide) (by decide)

/-- C10 as stated fails for the limit 10: on the 11-byte packet
`0123456789` with its newline, `strncpy` fills `lora_packet` without a
terminator and `strlen(lora_packet)` reads past the array, so that no frame
sequence is defined. -/
theorem frames_limit_10_undefined :
    ¬ ∃ effects ret,
      p2p_send_packet 10
          ([48, 49, 50, 51, 52, 53, 54, 55, 56, 57, 10] ++ NUL :: []) =
          some (effects, ret) ∧
        (frames_written effects).flatten = [48, 49, 50, 51, 52, 53, 54, 55, 56, 57, 10] := by
  have h : p2p_send_packet 10 ([48, 49, 50, 51, 52, 53, 54, 55, 56, 57, 10] ++ NUL :: []) =
      none := by decide
  rw [h]
  simp

/-! ## Fields -/

theorem split_fields_exists (s : List Nat) : ∃ f fs, split_fields s = f :: fs := by
  cases s with
  | nil => exact ⟨[], [], rfl⟩
  | cons c s =>
    by_cases hc : c = COMMA
    · exact ⟨[], split_fields s, by simp [split_fields, hc]⟩
    · cases h : split_fields s with
      | nil => exact ⟨[c], [], by simp [split_fields, hc, h]⟩
      | cons f fs => exact ⟨c :: f, fs, by simp [split_fields, hc, h]⟩

theorem split_fields_comma (s : List Nat) :
    split_fields (44 :: s) = [] :: split_fields s := by
  simp [split_fields, COMMA]

theorem split_fields_other (c : Nat) (s f : List Nat) (fs : List (List Nat))
    (hc : c ≠ 44) (h : split_fields s = f :: fs) :
    split_fields (c :: s) = (c :: f) :: fs := by
  simp [split_fields, COMMA, hc, h]

/-- A field holds no comma, and its characters are characters of the text. -/
theorem split_fields_mem (s : List Nat) :
    ∀ f ∈ split_fields s, ∀ c ∈ f, c ≠ 44 ∧ c ∈ s := by
  induction s with
  | nil =>
    intro f hf c hc
    simp [split_fields] at hf
    subst hf
    simp at hc
  | cons d s ih =>
    intro f hf c hc
    by_cases hd : d = 44
    · subst hd
      rw [split_fields_comma] at hf
      rcases List.mem_cons.1 hf with h | h
      · subst h
        simp at hc
      · exact ⟨(ih f h c hc).1, List.mem_cons_of_mem _ (ih f h c hc).2⟩
    · obtain ⟨g, gs, hg⟩ := split_fields_exists s
      rw [split_fields_other d s g gs hd hg] at hf
      rcases List.mem_cons.1 hf with h | h
      · subst h
        rcases List.mem_cons.1 hc with h2 | h2
        · subst h2
          exact ⟨hd, List.mem_cons_self _ _⟩
        · have := ih g (by rw [hg]; exact List.mem_cons_self _ _) c h2
          exact ⟨this.1, List.mem_cons_of_mem _ this.2⟩
      · have := ih f (by rw [hg]; exact List.mem_cons_of_mem _ h) c hc
        exact ⟨this.1, List.mem_cons_of_mem _ this.2⟩

/-- The length of a text, from the lengths of its fields. -/
theorem split_fields_length (s : List Nat) :
    ((split_fields s).map fun f => f.length + 1).sum = s.length + 1 := by
  induction s with
  | nil => simp [split_fields]
  | cons d s ih =>
    by_cases hd : d = 44
    · subst hd
      rw [split_fields_comma]
      simp only [List.map_cons, List.sum_cons, List.length_nil, List.length_cons, ih]
      omega
    · obtain ⟨g, gs, hg⟩ := split_fields_exists s
      rw [split_fields_other d s g gs hd hg]
      rw [hg] at ih
      simp only [List.map_cons, List.sum_cons, List.length_cons] at ih ⊢
      omega

/-- A text with at least two fields is its first field, a comma, and the
text of the other fields. -/
theorem split_fields_cons_cons (s f g : List Nat) (fs : List (List Nat))
    (h : split_fields s = f :: g :: fs) :
    ∃ t, s = f ++ 44 :: t ∧ split_fields t = g :: fs := by
  induction s generalizing f with
  | nil => simp [split_fields] at h
  | cons d s ih =>
    by_cases hd : d = 44
    · subst hd
      rw [split_fields_comma] at h
      injection h with h1 h2
      subst h1
      exact ⟨s, rfl, h2⟩
    · obtain ⟨a, as, ha⟩ := split_fields_exists s
      rw [split_fields_other d s a as hd ha] at h
      injection h with h1 h2
      subst h1 h2
      obtain ⟨t, ht, hst⟩ := ih a ha
      exact ⟨t, by rw [ht]; rfl, hst⟩

/-- The fields of a comma-free text followed by a comma and another text. -/
theorem split_fields_append (f t : List Nat) (hf : ∀ c ∈ f, c ≠ 44) :
    split_fields (f ++ 44 :: t) = f :: split_fields t := by
  induction f with
  | nil => exact split_fields_comma t
  | cons d f ih =>
    have hd : d ≠ 44 := hf d (List.mem_cons_self _ _)
    exact split_fields_other d _ f _ hd (ih fun c hc => hf c (List.mem_cons_of_mem _ hc))

/-- A comma-free text is a single field. -/
theorem split_fields_single (f : List Nat) (hf : ∀ c ∈ f, c ≠ 44) :
    split_fields f = [f] := by
  induction f with
  | nil => rfl
  | cons d f ih =>
    have hd : d ≠ 44 := hf d (List.mem_cons_self _ _)
    exact split_fields_other d _ f _ hd (ih fun c hc => hf c (List.mem_cons_of_mem _ hc))

/-! ## get_nth_parameter -/

theorem copy_parameter_cons (c : Nat) (p : List Nat) :
    copy_parameter (c :: p) =
      if c ≠ 44 ∧ c ≠ 0 then (copy_parameter p).map (c :: ·) else some [] := rfl

theorem skip_parameters_cons (n : Int) (c : Nat) (p : List Nat) (i : Int) (j : Nat) :
    skip_parameters n (c :: p) i j =
      if j < 100 ∧ i < n then skip_parameters n p (if c = 44 then i + 1 else i) (j + 1)
      else some (i, j, c :: p) := rfl

theorem skip_parameters_done (n : Int) (p : List Nat) (j : Nat) :
    skip_parameters n p n j = some (n, j, p) := by
  cases p with
  | nil => simp [skip_parameters]
  | cons c p => simp [skip_parameters_cons]

/-- The copy loop, started at the beginning of a NUL-terminated text, yields
the first field of the text. -/
theorem copy_parameter_first (s rest f : List Nat) (fs : List (List Nat))
    (hnul : ∀ c ∈ s, c ≠ 0) (h : split_fields s = f :: fs) :
    copy_parameter (s ++ 0 :: rest) = some f := by
  induction s generalizing f with
  | nil =>
    simp [split_fields] at h
    simp [copy_parameter_cons, h.1]
  | cons d s ih =>
    have hd0 : d ≠ 0 := hnul d (List.mem_cons_self _ _)
    by_cases hd : d = 44
    · subst hd
      rw [split_fields_comma] at h
      injection h with h1 h2
      subst h1
      simp [copy_parameter_cons]
    · obtain ⟨a, as, ha⟩ := split_fields_exists s
      rw [split_fields_other d s a as hd ha] at h
      injection h with h1 h2
      subst h1 h2
      rw [List.cons_append, copy_parameter_cons, if_pos ⟨hd, hd0⟩,
        ih a (fun c hc => hnul c (List.mem_cons_of_mem _ hc)) ha]
      rfl

/-- The two loops of `get_nth_parameter` on a NUL-terminated text that lies
within the first 100 bytes: after `k` more commas the copy loop yields field
`k` of the text. -/
theorem skip_then_copy (n : Int) (s rest : List Nat) (hnul : ∀ c ∈ s, c ≠ 0)
    (k : Nat) (i : Int) (j : Nat) (f : List Nat)
    (hn : n = i + k) (hj : j + s.length < 100) (hf : (split_fields s)[k]? = some f) :
    ∃ j2 p, skip_parameters n (s ++ 0 :: rest) i j = some (n, j2, p) ∧ j2 < 100 ∧
      copy_parameter p = some f := by
  induction s generalizing k i j with
  | nil =>
    cases k with
    | zero =>
      simp only [Nat.cast_zero, add_zero] at hn
      subst hn
      refine ⟨j, 0 :: rest, skip_parameters_done _ _ _, by omega, ?_⟩
      simp [split_fields] at hf
      simp [copy_parameter_cons, hf]
    | succ k => simp [split_fields] at hf
  | cons d s ih =>
    have hd0 : d ≠ 0 := hnul d (List.mem_cons_self _ _)
    have hs : ∀ c ∈ s, c ≠ 0 := fun c hc => hnul c (List.mem_cons_of_mem _ hc)
    simp only [List.length_cons] at hj
    cases k with
    | zero =>
      simp only [Nat.cast_zero, add_zero] at hn
      subst hn
      obtain ⟨a, as, ha⟩ := split_fields_exists (d :: s)
      rw [ha] at hf
      simp at hf
      subst hf
      exact ⟨j, (d :: s) ++ 0 :: rest, skip_parameters_done _ _ _, by omega,
        copy_parameter_first (d :: s) rest a as hnul ha⟩
    | succ k =>
      rw [List.cons_append, skip_parameters_cons,
        if_pos ⟨by omega, by rw [hn]; push_cast; omega⟩]
      by_cases hd : d = 44
      · subst hd
        rw [split_fields_comma] at hf
        simp only [List.getElem?_cons_succ] at hf
        rw [if_pos rfl]
        exact ih hs k (i + 1) (j + 1) (by rw [hn]; push_cast; omega) (by omega) hf
      · obtain ⟨a, as, ha⟩ := split_fields_exists s
        rw [split_fields_other d s a as hd ha] at hf
        simp only [List.getElem?_cons_succ] at hf
        rw [if_neg hd]
        exact ih hs (k + 1) i (j + 1) hn (by omega)
          (by rw [ha]; simpa using hf)

/-- On a NUL-terminated text of fewer than 100 bytes, whatever follows the
terminator, `get_nth_parameter` yields field `k` of the text when the text
has such a field. -/
theorem get_nth_parameter_field (s rest : List Nat) (hnul : ∀ c ∈ s, c ≠ 0)
    (hlen : s.length < 100) (k : Nat) (f : List Nat)
    (hf : (split_fields s)[k]? = some f) :
    get_nth_parameter (s ++ 0 :: rest) k = some (some f) := by
  have hk : k < (split_fields s).length := by
    rcases Nat.lt_or_ge k (split_fields s).length with h | h
    · exact h
    · rw [List.getElem?_eq_none h] at hf
      cases hf
  have hsum := split_fields_length s
  have hle : (split_fields s).length ≤ ((split_fields s).map fun f => f.length + 1).sum := by
    generalize split_fields s = l
    induction l with
    | nil => simp
    | cons a l ih =>
      simp only [List.length_cons, List.map_cons, List.sum_cons]
      omega
  obtain ⟨j2, p, hskip, hj2, hcopy⟩ :=
    skip_then_copy (k : Int) s rest hnul k 0 0 f (by simp) (by omega) hf
  unfold get_nth_parameter
  rw [if_neg (by unfold GPS_INFO_SIZE; push_cast; omega), hskip]
  simp only []
  rw [if_neg (by unfold GPS_INFO_SIZE; omega), hcopy]
  rfl

/-! ## str_reverse -/

theorem getD_append_cons (pre : List Nat) (x : Nat) (rest : List Nat) (d : Nat) :
    (pre ++ x :: rest).getD pre.length d = x := by
  induction pre with
  | nil => rfl
  | cons a pre ih => simpa using ih

theorem set_append_cons (pre : List Nat) (x y : Nat) (rest : List Nat) :
    (pre ++ x :: rest).set pre.length y = pre ++ y :: rest := by
  induction pre with
  | nil => rfl
  | cons a pre ih => simp

theorem str_reverse_loop_succ (len fuel i : Nat) (str : List Nat) :
    str_reverse_loop len (fuel + 1) i str =
      if i < len / 2 then
        str_reverse_loop len fuel (i + 1)
          ((str.set i (str.getD (len - i - 1) 0)).set (len - i - 1) (str.getD i 0))
      else str := rfl

/-- The loop of `str_reverse`, entered with the `i` outer characters on each
side already swapped, reverses the middle part in place. -/
theorem str_reverse_loop_mid (fuel : Nat) (pre mid post tail : List Nat)
    (hpost : post.length = pre.length) (hfuel : mid.length / 2 ≤ fuel) :
    str_reverse_loop (2 * pre.length + mid.length) fuel pre.length
        (pre ++ mid ++ post ++ tail) =
      pre ++ mid.reverse ++ post ++ tail := by
  induction fuel generalizing pre mid post with
  | zero =>
    have h1 : mid.length ≤ 1 := by omega
    have : mid.reverse = mid := by
      match mid, h1 with
      | [], _ => rfl
      | [a], _ => rfl
    rw [this]
    rfl
  | succ fuel ih =>
    rw [str_reverse_loop_succ]
    by_cases h2 : 2 ≤ mid.length
    · rw [if_pos (by omega)]
      obtain ⟨a, m, hm⟩ : ∃ a m, mid = a :: m := by
        cases mid with
        | nil => simp at h2
        | cons a m => exact ⟨a, m, rfl⟩
      subst hm
      have hmne : m ≠ [] := by
        intro h
        subst h
        simp at h2
      obtain ⟨mid2, b, hb⟩ : ∃ mid2 b, m = mid2 ++ [b] :=
        ⟨m.dropLast, m.getLast hmne, (List.dropLast_append_getLast hmne).symm⟩
      subst hb
      have hidx : 2 * pre.length + (a :: (mid2 ++ [b])).length - pre.length - 1 =
          (pre ++ a :: mid2).length := by
        simp only [List.length_cons, List.length_append, List.length_nil]
        omega
      have hidx2 : (pre ++ a :: mid2).length = (pre ++ b :: mid2).length := by
        simp
      have e1 : pre ++ a :: (mid2 ++ [b]) ++ post ++ tail =
          pre ++ a :: (mid2 ++ b :: (post ++ tail)) := by simp
      have e2 : pre ++ a :: (mid2 ++ [b]) ++ post ++ tail =
          (pre ++ a :: mid2) ++ b :: (post ++ tail) := by simp
      have e3 : pre ++ b :: (mid2 ++ b :: (post ++ tail)) =
          (pre ++ b :: mid2) ++ b :: (post ++ tail) := by simp
      have hget1 : (pre ++ a :: (mid2 ++ [b]) ++ post ++ tail).getD pre.length 0 = a := by
        rw [e1, getD_append_cons]
      have hget2 : (pre ++ a :: (mid2 ++ [b]) ++ post ++ tail).getD
          (pre ++ a :: mid2).length 0 = b := by
        rw [e2, getD_append_cons]
      rw [hidx, hget1, hget2]
      nth_rewrite 1 [e1]
      rw [set_append_cons, e3, hidx2, set_append_cons]
      have hlen : 2 * pre.length + (a :: (mid2 ++ [b])).length =
          2 * (pre ++ [b]).length + mid2.length := by
        simp only [List.length_cons, List.length_append, List.length_nil]
        omega
      have e4 : (pre ++ b :: mid2) ++ a :: (post ++ tail) =
          (pre ++ [b]) ++ mid2 ++ (a :: post) ++ tail := by simp
      have hi : pre.length + 1 = (pre ++ [b]).length := by simp
      rw [hlen, e4, hi, ih (pre ++ [b]) mid2 (a :: post) (by simp [hpost])
        (by simp only [List.length_cons, List.length_append, List.length_nil] at hfuel; omega)]
      simp
    · rw [if_neg (by omega)]
      have h1 : mid.length ≤ 1 := by omega
      have : mid.reverse = mid := by
        match mid, h1 with
        | [], _ => rfl
        | [a], _ => rfl
      rw [this]

/-- On a NUL-terminated text, `str_reverse` reverses the text in place. -/
theorem str_reverse_append (s rest : List Nat) (hnul : ∀ c ∈ s, c ≠ 0) :
    str_reverse (s ++ 0 :: rest) = some (s.reverse ++ 0 :: rest) := by
  unfold str_reverse
  rw [strlen_append s rest hnul]
  have h := str_reverse_loop_mid (s.length / 2) [] s [] (0 :: rest) rfl (le_refl _)
  simp only [List.length_nil, Nat.mul_zero, Nat.zero_add, List.nil_append,
    List.append_nil] at h
  simp only [Option.map_some']
  rw [h]

/-! ## itoa -/

theorem pow10_le (i : Nat) (hi : i ≤ 9) : 10 ^ i ≤ 1000000000 := by
  have h : 10 ^ i ≤ 10 ^ 9 := Nat.pow_le_pow_right (by decide) hi
  simpa using h

theorem wrap_int_pow10 (i : Nat) (hi : i + 1 ≤ 9) :
    wrap_int (((10 ^ i : Nat) : Int) * 10) = ((10 ^ (i + 1) : Nat) : Int) := by
  have h := pow10_le (i + 1) hi
  rw [pow_succ] at h
  rw [pow_succ]
  push_cast at h ⊢
  have h0 : (0 : Int) ≤ (10 : Int) ^ i * 10 := by positivity
  have h9 : ((10 : Int) ^ i * 10) ≤ 1000000000 := by exact_mod_cast h
  exact wrap_int_of_range _ (by omega) (by omega)

theorem itoa_count_succ (num : Int) (fuel i : Nat) (ten : Int) :
    itoa_count num (fuel + 1) i ten =
      if ten = 0 then none
      else if Int.tdiv num ten ≠ 0 then itoa_count num fuel (i + 1) (wrap_int (ten * 10))
      else some i := rfl

/-- The first loop of `itoa` counts the decimal digits of a number below
`10 ^ 9`. -/
theorem itoa_count_spec (n : Nat) (hn : n < 1000000000) (fuel i : Nat)
    (hi : i ≤ 9) (hfuel : 9 < i + fuel) (hlow : i = 1 ∨ 10 ^ (i - 1) ≤ n) :
    ∃ k, itoa_count n fuel i ((10 ^ i : Nat) : Int) = some k ∧ i ≤ k ∧ k ≤ 9 ∧
      n < 10 ^ k ∧ (k = 1 ∨ 10 ^ (k - 1) ≤ n) := by
  induction fuel generalizing i with
  | zero => omega
  | succ fuel ih =>
    have hpos : 0 < 10 ^ i := Nat.pos_pow_of_pos i (by decide)
    have hten : ((10 ^ i : Nat) : Int) ≠ 0 := by
      have : (0 : Int) < ((10 ^ i : Nat) : Int) := by exact_mod_cast hpos
      omega
    rw [itoa_count_succ, if_neg hten, ← Int.ofNat_tdiv]
    by_cases hq : n / 10 ^ i = 0
    · rw [if_neg (by rw [hq]; simp)]
      exact ⟨i, rfl, le_refl _, hi, (Nat.div_eq_zero_iff hpos).1 hq, hlow⟩
    · rw [if_pos (by exact_mod_cast hq)]
      have hge : 10 ^ i ≤ n := by
        by_contra hlt
        exact hq ((Nat.div_eq_zero_iff hpos).2 (by omega))
      have hi9 : i + 1 ≤ 9 := by
        by_contra h9
        have : i = 9 := by omega
        subst this
        have : (10 : Nat) ^ 9 = 1000000000 := by norm_num
        omega
      rw [wrap_int_pow10 i hi9]
      obtain ⟨k, hk, hik, hk9, hnk, hkl⟩ :=
        ih (i + 1) hi9 (by omega) (Or.inr (by simpa using hge))
      exact ⟨k, hk, by omega, hk9, hnk, hkl⟩

theorem itoa_digits_succ (num : Int) (k : Nat) (ten : Int) :
    itoa_digits num (k + 1) ten =
      if ten = 0 then none
      else (itoa_digits num k (wrap_int (ten * 10))).map
        (to_char (48 + Int.tmod (Int.tdiv num ten) 10) :: ·) := rfl

/-- The second loop of `itoa` writes the decimal digits of the number, the
lowest first. -/
theorem itoa_digits_spec (n k j : Nat) (hjk : j + k ≤ 9) :
    itoa_digits n k ((10 ^ j : Nat) : Int) =
      some ((List.range' j k).map fun m => 48 + n / 10 ^ m % 10) := by
  induction k generalizing j with
  | zero => rfl
  | succ k ih =>
    have hpos : 0 < 10 ^ j := Nat.pos_pow_of_pos j (by decide)
    have hten : ((10 ^ j : Nat) : Int) ≠ 0 := by
      have : (0 : Int) < ((10 ^ j : Nat) : Int) := by exact_mod_cast hpos
      omega
    have hchar : to_char (48 + Int.tmod (Int.tdiv (n : Int) ((10 ^ j : Nat) : Int)) 10) =
        48 + n / 10 ^ j % 10 := by
      rw [← Int.ofNat_tdiv]
      have h10 : (10 : Int) = ((10 : Nat) : Int) := rfl
      rw [h10, ← Int.ofNat_tmod]
      unfold to_char
      have hlt : n / 10 ^ j % 10 < 10 := Nat.mod_lt _ (by decide)
      omega
    rw [itoa_digits_succ, if_neg hten, wrap_int_pow10 j (by omega), ih (j + 1) (by omega),
      hchar, List.range'_succ]
    rfl

theorem strtod_digits_reverse_aux (n k j : Nat) :
    List.foldr (fun d (acc : Option Nat) => acc.bind fun v =>
        if 48 ≤ d ∧ d ≤ 57 then some (v * 10 + (d - 48)) else none) (some 0)
        ((List.range' j k).map fun m => 48 + n / 10 ^ m % 10) =
      some (n / 10 ^ j % 10 ^ k) := by
  induction k generalizing j with
  | zero => simp [Nat.mod_one]
  | succ k ih =>
    have hlt : n / 10 ^ j % 10 < 10 := Nat.mod_lt _ (by decide)
    rw [List.range'_succ, List.map_cons, List.foldr_cons, ih (j + 1)]
    simp only [Option.some_bind]
    rw [if_pos ⟨by omega, by omega⟩]
    congr 1
    have e1 : n / 10 ^ (j + 1) = n / 10 ^ j / 10 := by
      rw [pow_succ, Nat.div_div_eq_div_mul]
    have e2 : n / 10 ^ j % 10 ^ (k + 1) =
        n / 10 ^ j % 10 + 10 * (n / 10 ^ j / 10 % 10 ^ k) := by
      rw [pow_succ, Nat.mul_comm (10 ^ k) 10, Nat.mod_mul]
    rw [e1, e2]
    omega

/-- On a number below `10 ^ 9`, `itoa` stores between one and nine decimal
digits and a terminator, and the digits read back as the number. -/
theorem itoa_spec (n : Nat) (hn : n < 1000000000) :
    ∃ ds, itoa n = some (ds ++ [0]) ∧ 1 ≤ ds.length ∧ ds.length ≤ 9 ∧
      (∀ c ∈ ds, 48 ≤ c ∧ c ≤ 57) ∧ strtod_digits ds = some n := by
  obtain ⟨k, hk, hk1, hk9, hnk, _⟩ :=
    itoa_count_spec n hn 32 1 (by omega) (by omega) (Or.inl rfl)
  have hdig := itoa_digits_spec n k 0 (by omega)
  have hmem : ∀ c ∈ (List.range' 0 k).map fun m => 48 + n / 10 ^ m % 10,
      48 ≤ c ∧ c ≤ 57 := by
    intro c hc
    obtain ⟨m, _, hm⟩ := List.mem_map.1 hc
    have hlt : n / 10 ^ m % 10 < 10 := Nat.mod_lt _ (by decide)
    omega
  refine ⟨((List.range' 0 k).map fun m => 48 + n / 10 ^ m % 10).reverse, ?_, ?_, ?_, ?_, ?_⟩
  · unfold itoa
    simp only [pow_one, pow_zero, Nat.cast_ofNat, Nat.cast_one] at hk hdig
    simp only [hk, hdig, Option.bind_eq_bind, Option.some_bind, NUL]
    exact str_reverse_append _ [] fun c hc => by
      have := (hmem c hc).1
      omega
  · simp only [List.length_reverse, List.length_map, List.length_range']
    exact hk1
  · simp only [List.length_reverse, List.length_map, List.length_range']
    exact hk9
  · intro c hc
    exact hmem c (List.mem_reverse.1 hc)
  · unfold strtod_digits
    rw [if_neg, List.foldl_reverse, strtod_digits_reverse_aux n k 0]
    · simp only [pow_zero, Nat.div_one]
      rw [Nat.mod_eq_of_lt hnk]
    · intro h
      have hl := congrArg List.length h
      simp only [List.length_reverse, List.length_map, List.length_range',
        List.length_nil] at hl
      omega

/-! ## read_line -/

theorem read_line_loop_succ (k i : Nat) (buf fd : List Nat) :
    read_line_loop (k + 1) i buf fd =
      if (read_byte fd buf i).1.getD i 0 = 10 then
        (i, (read_byte fd buf i).1, (read_byte fd buf i).2)
      else read_line_loop k (i + 1) (read_byte fd buf i).1 (read_byte fd buf i).2 := rfl

theorem read_byte_cons (c : Nat) (fd buf : List Nat) (i : Nat) :
    read_byte (c :: fd) buf i = (buf.set i c, fd) := rfl

/-- The loop of `read_line` stores a newline-free text and its newline in the
buffer, from index `i` on, when enough iterations and bytes of buffer are
left. -/
theorem read_line_loop_line (body more pre post : List Nat) (k : Nat)
    (hnl : ∀ c ∈ body, c ≠ 10) (hk : body.length < k) (hpost : body.length < post.length) :
    read_line_loop k pre.length (pre ++ post) (body ++ 10 :: more) =
      (pre.length + body.length, pre ++ body ++ 10 :: post.drop (body.length + 1), more) := by
  induction body generalizing pre post k with
  | nil =>
    obtain ⟨k, rfl⟩ : ∃ k2, k = k2 + 1 := ⟨k - 1, by simp at hk; omega⟩
    obtain ⟨x, post, rfl⟩ : ∃ x p, post = x :: p := by
      cases post with
      | nil => simp at hpost
      | cons x p => exact ⟨x, p, rfl⟩
    rw [List.nil_append, read_line_loop_succ, read_byte_cons, set_append_cons]
    simp only [getD_append_cons, if_true]
    simp
  | cons c body ih =>
    have hc : c ≠ 10 := hnl c (List.mem_cons_self _ _)
    simp only [List.length_cons] at hk hpost
    obtain ⟨k, rfl⟩ : ∃ k2, k = k2 + 1 := ⟨k - 1, by omega⟩
    obtain ⟨x, post, rfl⟩ : ∃ x p, post = x :: p := by
      cases post with
      | nil => simp at hpost
      | cons x p => exact ⟨x, p, rfl⟩
    simp only [List.length_cons] at hpost
    rw [List.cons_append, read_line_loop_succ, read_byte_cons, set_append_cons]
    simp only [getD_append_cons, if_neg hc]
    have e : pre ++ c :: post = (pre ++ [c]) ++ post := by simp
    have hi : pre.length + 1 = (pre ++ [c]).length := by simp
    rw [e, hi, ih (pre ++ [c]) post k (fun d hd => hnl d (List.mem_cons_of_mem _ hd))
      (by omega) (by omega)]
    simp only [List.length_append, List.length_cons, List.length_nil, List.append_assoc,
      List.singleton_append, List.drop_succ_cons]
    congr 1
    omega

/-- When a newline-free text of at most `size - 2` bytes and a newline come
first, `read_line` returns the length of the text, leaves the text
NUL-terminated at the start of the buffer and consumes the text and the
newline. -/
theorem read_line_line (body more buf : List Nat) (size : Nat)
    (hnl : ∀ c ∈ body, c ≠ 10) (hsize : body.length + 1 < size)
    (hbuf : size ≤ buf.length) :
    read_line (body ++ 10 :: more) buf size =
      some ((body.length : Int), body ++ 0 :: buf.drop (body.length + 1), more) := by
  have h := read_line_loop_line body more [] buf (size - 1) hnl (by omega) (by omega)
  simp only [List.length_nil, List.nil_append, Nat.zero_add] at h
  unfold read_line
  rw [if_pos ⟨hbuf, by omega⟩]
  simp only [h, NEWLINE, NUL, getD_append_cons, ne_eq, not_true_eq_false, if_false,
    set_append_cons]

/-! ## The way of a packet from the sender to the receiver -/

theorem append_field_ok (size : Nat) (str packet : List Nat) (sep : Nat)
    (hstr : str.length + 1 ≤ STR_SIZE) (hsize : packet.length + str.length + 2 ≤ size) :
    append_field size (some (some str)) sep packet = some (some (packet ++ str ++ [sep])) := by
  simp [append_field, hstr, hsize]

theorem is_gpgga_of_fields (sentence rest g : List Nat) (fs : List (List Nat))
    (h : split_fields sentence = GPGGA :: g :: fs) :
    is_gpgga (sentence ++ 0 :: rest) = true := by
  obtain ⟨t, ht, _⟩ := split_fields_cons_cons sentence GPGGA g fs h
  subst ht
  rfl

/-- C9, as amended. For every sequence number from 0 to 999999999, every
`$GPGGA` sentence of at least 10 fields that is a NUL- and newline-free text
of fewer than 100 bytes and whose fields 2, 3, 4, 5 and 9 have fewer than
20 characters, and every frame limit from 1 to 9: the packet built by
`p2p_test_packet`, cut into frames by `p2p_send_packet`, concatenated and
read back by `read_line` into a 100-byte buffer, passes `is_complete_packet`,
and `get_nth_parameter` yields on its fields 0 to 5 the decimal text of the
sequence number and the latitude, N/S, longitude, E/W and altitude texts of
the sentence. -/
theorem round_trip (seq : Int) (limit : Nat)
    (sentence f1 f2 f3 f4 f5 f6 f7 f8 f9 : List Nat) (others : List (List Nat))
    (rest tail more buf : List Nat)
    (hseq0 : 0 ≤ seq) (hseq9 : seq < 1000000000)
    (hfields : split_fields sentence =
      GPGGA :: f1 :: f2 :: f3 :: f4 :: f5 :: f6 :: f7 :: f8 :: f9 :: others)
    (htext : ∀ c ∈ sentence, c ≠ NUL ∧ c ≠ NEWLINE)
    (hlen : sentence.length < GPS_INFO_SIZE)
    (hstr : f2.length < STR_SIZE ∧ f3.length < STR_SIZE ∧ f4.length < STR_SIZE ∧
      f5.length < STR_SIZE ∧ f9.length < STR_SIZE)
    (h1 : 1 ≤ limit) (hlimit : limit < LORA_PACKET_SIZE)
    (hbuf : buf.length = 100) :
    ∃ packet effects ret buf2 digits,
      p2p_test_packet BUF_SIZE seq (sentence ++ NUL :: rest) = some (some packet) ∧
      p2p_send_packet limit (packet ++ NUL :: tail) = some (effects, ret) ∧
      read_line ((frames_written effects).flatten ++ more) buf 100 =
        some ((packet.length : Int) - 1, buf2, more) ∧
      is_complete_packet buf2 = some 5 ∧
      get_nth_parameter buf2 0 = some (some digits) ∧
      (strtod_digits digits).map Int.ofNat = some seq ∧
      get_nth_parameter buf2 1 = some (some f2) ∧
      get_nth_parameter buf2 2 = some (some f3) ∧
      get_nth_parameter buf2 3 = some (some f4) ∧
      get_nth_parameter buf2 4 = some (some f5) ∧
      get_nth_parameter buf2 5 = some (some f9) := by
  simp only [NUL, NEWLINE, GPS_INFO_SIZE, STR_SIZE] at htext hlen hstr ⊢
  -- the sequence number and its digits
  obtain ⟨n, rfl⟩ : ∃ n : Nat, seq = n := ⟨seq.toNat, (Int.toNat_of_nonneg hseq0).symm⟩
  have hn : n < 1000000000 := by omega
  obtain ⟨ds, hitoa, hds1, hds9, hdig, hval⟩ := itoa_spec n hn
  have hds0 : ∀ c ∈ ds, c ≠ 0 := fun c hc => by have := (hdig c hc).1; omega
  have hds44 : ∀ c ∈ ds, c ≠ 44 := fun c hc => by have := (hdig c hc).1; omega
  have hds10 : ∀ c ∈ ds, c ≠ 10 := fun c hc => by have := (hdig c hc).1; omega
  -- the fields of the sentence
  have hsnul : ∀ c ∈ sentence, c ≠ 0 := fun c hc => (htext c hc).1
  have hmem := split_fields_mem sentence
  rw [hfields] at hmem
  have hprop : ∀ f, f ∈ [f2, f3, f4, f5, f9] → ∀ c ∈ f, c ≠ 44 ∧ c ≠ 0 ∧ c ≠ 10 := by
    intro f hf c hc
    have hfm : f ∈ GPGGA :: f1 :: f2 :: f3 :: f4 :: f5 :: f6 :: f7 :: f8 :: f9 :: others := by
      simp only [List.mem_cons, List.mem_singleton, List.not_mem_nil, or_false] at hf
      rcases hf with h | h | h | h | h <;> subst h <;> simp
    have := hmem f hfm c hc
    exact ⟨this.1, (htext c this.2).1, (htext c this.2).2⟩
  have hp2 := hprop f2 (by simp)
  have hp3 := hprop f3 (by simp)
  have hp4 := hprop f4 (by simp)
  have hp5 := hprop f5 (by simp)
  have hp9 := hprop f9 (by simp)
  have hsum := split_fields_length sentence
  rw [hfields] at hsum
  simp only [List.map_cons, List.sum_cons, GPGGA, List.length_cons, List.length_nil] at hsum
  have hget : ∀ (k : Nat) (f : List Nat),
      (GPGGA :: f1 :: f2 :: f3 :: f4 :: f5 :: f6 :: f7 :: f8 :: f9 :: others)[k]? = some f →
      get_nth_parameter (sentence ++ 0 :: rest) k = some (some f) := by
    intro k f hk
    exact get_nth_parameter_field sentence rest hsnul hlen k f (by rw [hfields]; exact hk)
  have hg2 := hget 2 f2 (by simp)
  have hg3 := hget 3 f3 (by simp)
  have hg4 := hget 4 f4 (by simp)
  have hg5 := hget 5 f5 (by simp)
  have hg9 := hget 9 f9 (by simp)
  have hgga := is_gpgga_of_fields sentence rest f1 _ hfields
  -- the packet
  have hpacket : p2p_test_packet BUF_SIZE n (sentence ++ 0 :: rest) =
      some (some (ds ++ [44] ++ f2 ++ [44] ++ f3 ++ [44] ++ f4 ++ [44] ++ f5 ++ [44] ++
        f9 ++ [10])) := by
    unfold p2p_test_packet
    simp only [hitoa, Option.bind_eq_bind, Option.some_bind, strlen_append ds [] hds0,
      get_latitude, get_ns_hemisphere, get_longitude, get_ew_hemisphere, get_altitude,
      hgga, bne_self_eq_false, Bool.false_eq_true, if_false, COMMA, NEWLINE, BUF_SIZE,
      STR_SIZE, List.take_left']
    rw [if_pos ⟨by simp only [List.length_append, List.length_cons, List.length_nil]; omega,
      by omega⟩]
    have c2 : (2 : Int) = ((2 : Nat) : Int) := rfl
    have c3 : (3 : Int) = ((3 : Nat) : Int) := rfl
    have c4 : (4 : Int) = ((4 : Nat) : Int) := rfl
    have c5 : (5 : Int) = ((5 : Nat) : Int) := rfl
    have c9 : (9 : Int) = ((9 : Nat) : Int) := rfl
    rw [c2, c3, c4, c5, c9, hg2, hg3, hg4, hg5, hg9]
    rw [append_field_ok 100 f2 _ 44 (by unfold STR_SIZE; omega)
      (by simp only [List.length_append, List.length_cons, List.length_nil]; omega)]
    simp only []
    rw [append_field_ok 100 f3 _ 44 (by unfold STR_SIZE; omega)
      (by simp only [List.length_append, List.length_cons, List.length_nil]; omega)]
    simp only []
    rw [append_field_ok 100 f4 _ 44 (by unfold STR_SIZE; omega)
      (by simp only [List.length_append, List.length_cons, List.length_nil]; omega)]
    simp only []
    rw [append_field_ok 100 f5 _ 44 (by unfold STR_SIZE; omega)
      (by simp only [List.length_append, List.length_cons, List.length_nil]; omega)]
    simp only []
    rw [append_field_ok 100 f9 _ 10 (by unfold STR_SIZE; omega)
      (by simp only [List.length_append, List.length_cons, List.length_nil]; omega)]
  -- the text of the packet before its newline
  have hbody : ds ++ [44] ++ f2 ++ [44] ++ f3 ++ [44] ++ f4 ++ [44] ++ f5 ++ [44] ++ f9 ++ [10] =
      (ds ++ 44 :: (f2 ++ 44 :: (f3 ++ 44 :: (f4 ++ 44 :: (f5 ++ 44 :: f9))))) ++ [10] := by
    simp
  rw [hbody] at hpacket
  have hbnul : ∀ c ∈ ds ++ 44 :: (f2 ++ 44 :: (f3 ++ 44 :: (f4 ++ 44 :: (f5 ++ 44 :: f9)))),
      c ≠ 0 ∧ c ≠ 10 := by
    intro c hc
    simp only [List.mem_append, List.mem_cons] at hc
    rcases hc with h | h | h | h | h | h | h | h | h | h | h
    · exact ⟨hds0 c h, hds10 c h⟩
    · subst h; decide
    · exact (hp2 c h).2
    · subst h; decide
    · exact (hp3 c h).2
    · subst h; decide
    · exact (hp4 c h).2
    · subst h; decide
    · exact (hp5 c h).2
    · subst h; decide
    · exact (hp9 c h).2
  have hblen : (ds ++ 44 :: (f2 ++ 44 :: (f3 ++ 44 :: (f4 ++ 44 :: (f5 ++ 44 :: f9))))).length =
      ds.length + f2.length + f3.length + f4.length + f5.length + f9.length + 5 := by
    simp only [List.length_append, List.length_cons]
    omega
  have hsplit : split_fields
      (ds ++ 44 :: (f2 ++ 44 :: (f3 ++ 44 :: (f4 ++ 44 :: (f5 ++ 44 :: f9))))) =
      [ds, f2, f3, f4, f5, f9] := by
    rw [split_fields_append ds _ hds44, split_fields_append f2 _ fun c hc => (hp2 c hc).1,
      split_fields_append f3 _ fun c hc => (hp3 c hc).1,
      split_fields_append f4 _ fun c hc => (hp4 c hc).1,
      split_fields_append f5 _ fun c hc => (hp5 c hc).1,
      split_fields_single f9 fun c hc => (hp9 c hc).1]
  have hcount : List.count 44
      (ds ++ 44 :: (f2 ++ 44 :: (f3 ++ 44 :: (f4 ++ 44 :: (f5 ++ 44 :: f9))))) = 5 := by
    simp only [List.count_append, List.count_cons_self,
      List.count_eq_zero_of_not_mem fun h => hds44 44 h rfl,
      List.count_eq_zero_of_not_mem fun h => (hp2 44 h).1 rfl,
      List.count_eq_zero_of_not_mem fun h => (hp3 44 h).1 rfl,
      List.count_eq_zero_of_not_mem fun h => (hp4 44 h).1 rfl,
      List.count_eq_zero_of_not_mem fun h => (hp5 44 h).1 rfl,
      List.count_eq_zero_of_not_mem fun h => (hp9 44 h).1 rfl]
  generalize hb : ds ++ 44 :: (f2 ++ 44 :: (f3 ++ 44 :: (f4 ++ 44 :: (f5 ++ 44 :: f9)))) = body
    at hpacket hbnul hblen hsplit hcount
  -- the frames
  have hpnul : ∀ c ∈ body ++ [10], c ≠ 0 := by
    intro c hc
    rcases List.mem_append.1 hc with h | h
    · exact (hbnul c h).1
    · simp only [List.mem_singleton] at h
      subst h
      decide
  obtain ⟨effects, ret, hsend, hframes⟩ :=
    p2p_send_packet_frames limit (body ++ [10]) tail hpnul h1 hlimit
  -- the line read back
  have hread := read_line_line body more buf 100 (fun c hc => (hbnul c hc).2)
    (by omega) (by omega)
  have hrnul : ∀ c ∈ body, c ≠ 0 := fun c hc => (hbnul c hc).1
  have hrget : ∀ (k : Nat) (f : List Nat), [ds, f2, f3, f4, f5, f9][k]? = some f →
      get_nth_parameter (body ++ 0 :: buf.drop (body.length + 1)) k = some (some f) := by
    intro k f hk
    exact get_nth_parameter_field body _ hrnul (by omega) k f (by rw [hsplit]; exact hk)
  refine ⟨body ++ [10], effects, ret, body ++ 0 :: buf.drop (body.length + 1), ds,
    hpacket, hsend, ?_, ?_, hrget 0 ds rfl, ?_, hrget 1 f2 rfl, hrget 2 f3 rfl,
    hrget 3 f4 rfl, hrget 4 f5 rfl, hrget 5 f9 rfl⟩
  · rw [hframes, List.append_assoc, List.singleton_append, hread]
    simp
  · have h := is_complete_packet_append body (buf.drop (body.length + 1)) hrnul (by omega)
    rw [h, if_pos hcount]
  · rw [hval]
    rfl

/-- Witness of C9: the sequence number 42, the sentence
`$GPGGA,1,2,N,3,E,1,8,1,4` and frames of 3 bytes. -/
theorem round_trip_witness :
    ∃ packet effects ret buf2 digits,
      p2p_test_packet BUF_SIZE 42
          ([36, 71, 80, 71, 71, 65, 44, 49, 44, 50, 44, 78, 44, 51, 44, 69, 44, 49, 44, 56,
            44, 49, 44, 52] ++ NUL :: []) = some (some packet) ∧
      p2p_send_packet 3 (packet ++ NUL :: []) = some (effects, ret) ∧
      read_line ((frames_written effects).flatten ++ [55]) (List.replicate 100 7) 100 =
        some ((packet.length : Int) - 1, buf2, [55]) ∧
      is_complete_packet buf2 = some 5 ∧
      get_nth_parameter buf2 0 = some (some digits) ∧
      (strtod_digits digits).map Int.ofNat = some 42 ∧
      get_nth_parameter buf2 1 = some (some [50]) ∧
      get_nth_parameter buf2 2 = some (some [78]) ∧
      get_nth_parameter buf2 3 = some (some [51]) ∧
      get_nth_parameter buf2 4 = some (some [69]) ∧
      get_nth_parameter buf2 5 = some (some [52]) :=
  round_trip 42 3
    [36, 71, 80, 71, 71, 65, 44, 49, 44, 50, 44, 78, 44, 51, 44, 69, 44, 49, 44, 56,
      44, 49, 44, 52]
    [49] [50] [78] [51] [69] [49] [56] [49] [52] [] [] [] [55] (List.replicate 100 7)
    (by decide) (by decide) (by decide) (by decide) (by decide) (by decide) (by decide)
    (by decide) (by simp)

/-- C9 as stated fails for the limit 10: for the sequence number 42 and the
sentence `$GPGGA,1,2,N,3,E,1,8,1,4` the packet is `42,2,N,3,E,4` with its
newline, 13 bytes, and `p2p_send_packet` has no defined result on it, so that
nothing defined reaches the receiver. -/
theorem round_trip_limit_10_undefined :
    p2p_test_packet BUF_SIZE 42
        ([36, 71, 80, 71, 71, 65, 44, 49, 44, 50, 44, 78, 44, 51, 44, 69, 44, 49, 44, 56,
          44, 49, 44, 52] ++ NUL :: []) =
        some (some [52, 50, 44, 50, 44, 78, 44, 51, 44, 69, 44, 52, 10]) ∧
      p2p_send_packet 10 ([52, 50, 44, 50, 44, 78, 44, 51, 44, 69, 44, 52, 10] ++ NUL :: []) =
        none := by
  decide

/-! ## The calls of p2p_send_packet -/

theorem frames_written_frame_calls (frames : List (List Nat)) :
    frames_written (frames.flatMap frame_calls) = frames := by
  induction frames with
  | nil => rfl
  | cons f frames ih =>
    rw [List.flatMap_cons]
    show frames_written (Effect.change_vmin f.length :: Effect.write f ::
      frames.flatMap frame_calls) = f :: frames
    simp only [frames_written, ih]

theorem frame_count_step (x limit : Nat) (h1 : 1 ≤ limit) (hx : 1 ≤ x) :
    (x - limit + limit - 1) / limit + 1 = (x + limit - 1) / limit := by
  have e : x + limit - 1 = (x - 1) + limit := by omega
  rw [e, Nat.add_div_right _ (by omega)]
  congr 1
  rcases Nat.lt_or_ge limit x with h | h
  · have : x - limit + limit - 1 = x - 1 := by omega
    rw [this]
  · have e0 : x - limit + limit - 1 = limit - 1 := by omega
    rw [e0, Nat.div_eq_of_lt (by omega), Nat.div_eq_of_lt (by omega)]

/-- The loop of `p2p_send_packet` on a NUL-terminated text, with a limit from
1 to 9: the calls are those of the successive pieces of at most `limit`
bytes of the rest of the text. -/
theorem p2p_send_packet_loop_calls (limit : Nat) (s rest : List Nat)
    (hnul : ∀ c ∈ s, c ≠ 0) (h1 : 1 ≤ limit) (hlimit : limit < LORA_PACKET_SIZE)
    (fuel cnt : Nat) (hfuel : s.length < cnt + fuel) (hpos : 1 ≤ fuel) :
    ∃ (frames : List (List Nat)) (ret : Nat),
      p2p_send_packet_loop limit (s ++ 0 :: rest) s.length fuel cnt =
          some (frames.flatMap frame_calls, ret) ∧
        frames.flatten = s.drop cnt ∧
        (∀ f ∈ frames, 1 ≤ f.length ∧ f.length ≤ limit) ∧
        frames.length = (s.length - cnt + limit - 1) / limit := by
  induction fuel generalizing cnt with
  | zero => omega
  | succ fuel ih =>
    by_cases hc : cnt < s.length
    · obtain ⟨frames, ret, hrec, hfl, hlen, hnum⟩ := ih (cnt + limit) (by omega) (by omega)
      have hdrop : (s ++ 0 :: rest).drop cnt = s.drop cnt ++ 0 :: rest := by
        rw [List.drop_append_of_le_length (by omega)]
      have hnul2 : ∀ c ∈ s.drop cnt, c ≠ 0 := fun c hcm => hnul c (List.mem_of_mem_drop hcm)
      obtain ⟨pad, hbuf⟩ := lora_packet_append limit (s.drop cnt) rest hnul2 hlimit
      have hnul3 : ∀ c ∈ (s.drop cnt).take limit, c ≠ 0 :=
        fun c hcm => hnul2 c (List.mem_of_mem_take hcm)
      have hflen : ((s.drop cnt).take limit).length = min limit (s.length - cnt) := by
        rw [List.length_take, List.length_drop]
      refine ⟨(s.drop cnt).take limit :: frames, ret, ?_, ?_, ?_, ?_⟩
      · simp only [p2p_send_packet_loop, if_pos hc, hdrop, hbuf, Option.bind_eq_bind,
          Option.some_bind, strlen_append _ pad hnul3, hrec, List.take_left',
          List.flatMap_cons, frame_calls, List.cons_append, List.nil_append]
      · simp only [List.flatten_cons, hfl]
        rw [← List.drop_drop, List.take_append_drop]
      · intro f hf
        rcases List.mem_cons.1 hf with h | h
        · rw [h, hflen]
          omega
        · exact hlen f h
      · rw [List.length_cons, hnum]
        have := frame_count_step (s.length - cnt) limit h1 (by omega)
        have e : s.length - (cnt + limit) = s.length - cnt - limit := by omega
        rw [e]
        exact this
    · refine ⟨[], cnt, ?_, ?_, ?_, ?_⟩
      · simp only [p2p_send_packet_loop, if_neg hc, List.flatMap_nil]
      · simp only [List.flatten_nil]
        rw [List.drop_eq_nil_of_le (by omega)]
      · intro f hf
        cases hf
      · have e : s.length - cnt + limit - 1 = limit - 1 := by omega
        rw [e, Nat.div_eq_of_lt (by omega)]
        rfl

/-- With a limit from 1 to 9, `p2p_send_packet` returns on a NUL-terminated
text; its calls are, for each frame in order, `change_vmin` with the length of
the frame and then `write` with the frame, and the frames are the successive
pieces of at most `limit` bytes of the text. -/
theorem p2p_send_packet_calls (limit : Nat) (s rest : List Nat)
    (hnul : ∀ c ∈ s, c ≠ 0) (h1 : 1 ≤ limit) (hlimit : limit < LORA_PACKET_SIZE) :
    ∃ (frames : List (List Nat)) (ret : Nat),
      p2p_send_packet limit (s ++ 0 :: rest) = some (frames.flatMap frame_calls, ret) ∧
        frames.flatten = s ∧
        (∀ f ∈ frames, 1 ≤ f.length ∧ f.length ≤ limit) ∧
        frames.length = (s.length + limit - 1) / limit := by
  obtain ⟨frames, ret, hloop, hfl, hlen, hnum⟩ :=
    p2p_send_packet_loop_calls limit s rest hnul h1 hlimit (s.length + 1) 0
      (by omega) (by omega)
  refine ⟨frames, ret, ?_, ?_, hlen, ?_⟩
  · unfold p2p_send_packet
    simp only [strlen_append s rest hnul, Option.bind_eq_bind, Option.some_bind]
    exact hloop
  · rw [hfl, List.drop_zero]
  · rw [hnum, Nat.sub_zero]

/-- C11, as amended. For every NUL-free packet text and every frame limit
from 1 to 9 (the frame is staged in the 10-byte array `lora_packet`),
`p2p_send_packet` returns, every frame it writes has between 1 and `limit`
bytes, and it writes `(len + limit - 1) / limit` frames, the rounded-up
quotient of the length of the text by the limit; with the default limit
`LORA_LIMIT` these are as many frames of one byte as the text has bytes. -/
theorem frame_size_bound (limit : Nat) (s rest : List Nat)
    (hnul : ∀ c ∈ s, c ≠ NUL) (h1 : 1 ≤ limit) (hlimit : limit < LORA_PACKET_SIZE) :
    ∃ effects ret,
      p2p_send_packet limit (s ++ NUL :: rest) = some (effects, ret) ∧
        (∀ f ∈ frames_written effects, 1 ≤ f.length ∧ f.length ≤ limit) ∧
        (frames_written effects).length = (s.length + limit - 1) / limit ∧
        (limit = LORA_LIMIT →
          (frames_written effects).length = s.length ∧
            ∀ f ∈ frames_written effects, f.length = 1) := by
  obtain ⟨frames, ret, hsend, _, hlen, hnum⟩ :=
    p2p_send_packet_calls limit s rest hnul h1 hlimit
  refine ⟨frames.flatMap frame_calls, ret, hsend, ?_, ?_, ?_⟩
  · rw [frames_written_frame_calls]
    exact hlen
  · rw [frames_written_frame_calls]
    exact hnum
  · intro hl
    rw [frames_written_frame_calls]
    unfold LORA_LIMIT at hl
    subst hl
    refine ⟨?_, ?_⟩
    · rw [hnum]
      simp
    · intro f hf
      have := hlen f hf
      omega

/-- Witness of C11: the 13 bytes of the packet `42,a,N,b,E,c` with its
newline go out in 4 frames of at most 4 bytes. -/
theorem frame_size_bound_witness :
    ∃ effects ret,
      p2p_send_packet 4
          ([52, 50, 44, 97, 44, 78, 44, 98, 44, 69, 44, 99, 10] ++ NUL :: []) =
          some (effects, ret) ∧
        (∀ f ∈ frames_written effects, 1 ≤ f.length ∧ f.length ≤ 4) ∧
        (frames_written effects).length = 4 :=
  have h := frame_size_bound 4 [52, 50, 44, 97, 44, 78, 44, 98, 44, 69, 44, 99, 10] []
    (by decide) (by decide) (by decide)
  h.imp fun _ h2 => h2.imp fun _ h3 => ⟨h3.1, h3.2.1, h3.2.2.1⟩

/-- C11 as stated fails for the limit 12: on the 13-byte packet
`42,a,N,b,E,c` with its newline, `strncpy` writes 12 bytes into the 10-byte
array `lora_packet`, so that no frame is defined. -/
theorem frame_limit_12_undefined :
    ¬ ∃ effects ret,
      p2p_send_packet 12
          ([52, 50, 44, 97, 44, 78, 44, 98, 44, 69, 44, 99, 10] ++ NUL :: []) =
          some (effects, ret) ∧
        (∀ f ∈ frames_written effects, 1 ≤ f.length ∧ f.length ≤ 12) ∧
        (frames_written effects).length = (13 + 12 - 1) / 12 := by
  have h : p2p_send_packet 12
      ([52, 50, 44, 97, 44, 78, 44, 98, 44, 69, 44, 99, 10] ++ NUL :: []) = none := by
    decide
  rw [h]
  simp

/-- C12. For every NUL-free packet text, the calls of `p2p_send_packet` on the
serial port are, for each frame in order, one `change_vmin` with the length
of the frame followed at once by one `write` of the frame, and the frames are
non-empty and are the successive pieces of the text. This holds with the
limit `LORA_LIMIT` of the program and with every other limit from 1 to 9. -/
theorem negotiate_then_write (s rest : List Nat) (hnul : ∀ c ∈ s, c ≠ NUL) :
    (∃ (frames : List (List Nat)) (ret : Nat),
      p2p_send_packet LORA_LIMIT (s ++ NUL :: rest) =
          some (frames.flatMap
            (fun f => [Effect.change_vmin f.length, Effect.write f]), ret) ∧
        frames.flatten = s ∧ ∀ f ∈ frames, 1 ≤ f.length) ∧
      ∀ limit, 1 ≤ limit → limit < LORA_PACKET_SIZE →
        ∃ (frames : List (List Nat)) (ret : Nat),
          p2p_send_packet limit (s ++ NUL :: rest) =
              some (frames.flatMap
                (fun f => [Effect.change_vmin f.length, Effect.write f]), ret) ∧
            frames.flatten = s ∧ ∀ f ∈ frames, 1 ≤ f.length := by
  have hall : ∀ limit, 1 ≤ limit → limit < LORA_PACKET_SIZE →
      ∃ (frames : List (List Nat)) (ret : Nat),
        p2p_send_packet limit (s ++ NUL :: rest) =
            some (frames.flatMap
              (fun f => [Effect.change_vmin f.length, Effect.write f]), ret) ∧
          frames.flatten = s ∧ ∀ f ∈ frames, 1 ≤ f.length := by
    intro limit h1 hlimit
    obtain ⟨frames, ret, hsend, hfl, hlen, _⟩ :=
      p2p_send_packet_calls limit s rest hnul h1 hlimit
    exact ⟨frames, ret, hsend, hfl, fun f hf => (hlen f hf).1⟩
  exact ⟨hall LORA_LIMIT (by decide) (by decide), hall⟩

/-- Witness of C12: the packet `ab` with its newline and the limit
`LORA_LIMIT` of the program. -/
theorem negotiate_then_write_witness :
    ∃ (frames : List (List Nat)) (ret : Nat),
      p2p_send_packet LORA_LIMIT ([97, 98, 10] ++ NUL :: []) =
          some (frames.flatMap
            (fun f => [Effect.change_vmin f.length, Effect.write f]), ret) ∧
        frames.flatten = [97, 98, 10] ∧ ∀ f ∈ frames, 1 ≤ f.length :=
  (negotiate_then_write [97, 98, 10] [] (by decide)).1

/-! ## p2p_send_packet on a port that fails -/

theorem change_vmin_returns (t : Termios) (vmin : Int) (h : t.tcgetattr_first = true) :
    ∃ r, change_vmin t vmin = some r := by
  unfold change_vmin
  rw [if_neg (by simp [h])]
  split_ifs <;> exact ⟨_, rfl⟩

/-- As long as the process does not exit in `change_vmin`, the calls of the
loop of `p2p_send_packet` do not depend on the values that `change_vmin` and
`write` return. -/
theorem p2p_send_packet_port_loop_effects (port : Nat → PortAnswer) (limit : Nat)
    (packet : List Nat) (len : Nat)
    (hport : ∀ k, (port k).termios.tcgetattr_first = true) (fuel cnt k : Nat) :
    (p2p_send_packet_port_loop port limit packet len fuel cnt k).map
        (fun r => (calls_effects r.1, r.2)) =
      (p2p_send_packet_loop limit packet len fuel cnt).map (fun r => (r.1, some r.2)) := by
  induction fuel generalizing cnt k with
  | zero => rfl
  | succ fuel ih =>
    simp only [p2p_send_packet_port_loop, p2p_send_packet_loop]
    by_cases hc : cnt < len
    · simp only [if_pos hc, Option.bind_eq_bind]
      cases hb : lora_packet limit (packet.drop cnt) with
      | none => rfl
      | some buf =>
        simp only [Option.some_bind]
        cases hn : strlen buf with
        | none => rfl
        | some n =>
          obtain ⟨r, hr⟩ := change_vmin_returns (port k).termios n (hport k)
          simp only [Option.some_bind, hr]
          have h := ih (cnt + limit) (k + 1)
          cases hp : p2p_send_packet_port_loop port limit packet len fuel (cnt + limit) (k + 1)
            with
          | none =>
            rw [hp] at h
            cases hq : p2p_send_packet_loop limit packet len fuel (cnt + limit) with
            | none => rfl
            | some q => rw [hq] at h; cases h
          | some p =>
            rw [hp] at h
            cases hq : p2p_send_packet_loop limit packet len fuel (cnt + limit) with
            | none => rw [hq] at h; cases h
            | some q =>
              rw [hq] at h
              simp only [Option.map_some', Option.some.injEq, Prod.mk.injEq] at h
              simp only [Option.some_bind, Option.map_some', calls_effects, h.1, h.2]
    · simp only [if_neg hc]
      rfl

/-- As long as the process does not exit in `change_vmin`, the calls of
`p2p_send_packet` and the value it returns are the same whatever
`change_vmin` and `write` return. -/
theorem p2p_send_packet_port_effects (port : Nat → PortAnswer) (limit : Nat)
    (packet : List Nat) (hport : ∀ k, (port k).termios.tcgetattr_first = true) :
    (p2p_send_packet_port port limit packet).map (fun r => (calls_effects r.1, r.2)) =
      (p2p_send_packet limit packet).map (fun r => (r.1, some r.2)) := by
  unfold p2p_send_packet_port p2p_send_packet
  cases strlen packet with
  | none => rfl
  | some len =>
    simp only [Option.bind_eq_bind, Option.some_bind]
    exact p2p_send_packet_port_loop_effects port limit packet len hport (len + 1) 0 0

/-- C13. On the packet `ab` with its newline and the limit `LORA_LIMIT`, when
for the first frame `tcsetattr` fails, so that `change_vmin` returns `ERROR`,
and `write` returns -1, `p2p_send_packet` still negotiates and writes the
second and the third frame and returns 3. -/
theorem send_goes_on_after_failure :
    p2p_send_packet_port
        (fun k =>
          if k = 0 then
            { termios := { tcgetattr_first := true, tcsetattr := false,
                           tcgetattr_second := true, vmin := 0 }
              write_ret := -1 }
          else
            { termios := { tcgetattr_first := true, tcsetattr := true,
                           tcgetattr_second := true, vmin := 1 }
              write_ret := 1 })
        LORA_LIMIT ([97, 98, 10] ++ NUL :: []) =
      some ([PortCall.change_vmin 1 (some ERROR), PortCall.write [97] (-1),
        PortCall.change_vmin 1 (some OK), PortCall.write [98] 1,
        PortCall.change_vmin 1 (some OK), PortCall.write [10] 1], some 3) := by
  decide

/-! ## The receive path of main -/

theorem stored_in_fits (size : Nat) (s : List Nat) (h : s.length + 1 ≤ size) :
    stored_in size (some (some s)) = some (some s) := by
  simp [stored_in, h]

/-- On a number below `10 ^ 9` with `k` decimal digits, `itoa` stores the
digits, the highest first, and a terminator. -/
theorem itoa_text (n : Nat) (hn : n < 1000000000) :
    ∃ k, 1 ≤ k ∧ k ≤ 9 ∧ n < 10 ^ k ∧ (k = 1 ∨ 10 ^ (k - 1) ≤ n) ∧
      itoa n = some (((List.range' 0 k).map fun m => 48 + n / 10 ^ m % 10).reverse ++ [0]) := by
  obtain ⟨k, hk, hk1, hk9, hnk, hkl⟩ :=
    itoa_count_spec n hn 32 1 (by omega) (by omega) (Or.inl rfl)
  have hdig := itoa_digits_spec n k 0 (by omega)
  refine ⟨k, hk1, hk9, hnk, hkl, ?_⟩
  unfold itoa
  simp only [pow_one, pow_zero, Nat.cast_ofNat, Nat.cast_one] at hk hdig
  simp only [hk, hdig, Option.bind_eq_bind, Option.some_bind, NUL]
  exact str_reverse_append _ [] fun c hc => by
    obtain ⟨m, _, hm⟩ := List.mem_map.1 hc
    omega

/-- On a number below `10 ^ 9`, `itoa` stores the decimal text of the number:
decimal digits that read back as the number, with no leading zero unless
the text is a single digit. -/
theorem itoa_decimal (n : Nat) (hn : n < 1000000000) :
    ∃ ds, itoa n = some (ds ++ [0]) ∧ 1 ≤ ds.length ∧ ds.length ≤ 9 ∧
      (∀ c ∈ ds, 48 ≤ c ∧ c ≤ 57) ∧ strtod_digits ds = some n ∧
      (ds.length = 1 ∨ ds.head? ≠ some 48) := by
  obtain ⟨k, hk1, hk9, hnk, hkl, hitoa⟩ := itoa_text n hn
  have hmem : ∀ c ∈ (List.range' 0 k).map fun m => 48 + n / 10 ^ m % 10,
      48 ≤ c ∧ c ≤ 57 := by
    intro c hc
    obtain ⟨m, _, hm⟩ := List.mem_map.1 hc
    have hlt : n / 10 ^ m % 10 < 10 := Nat.mod_lt _ (by decide)
    omega
  refine ⟨_, hitoa, ?_, ?_, ?_, ?_, ?_⟩
  · simp only [List.length_reverse, List.length_map, List.length_range']
    exact hk1
  · simp only [List.length_reverse, List.length_map, List.length_range']
    exact hk9
  · intro c hc
    exact hmem c (List.mem_reverse.1 hc)
  · unfold strtod_digits
    rw [if_neg, List.foldl_reverse, strtod_digits_reverse_aux n k 0]
    · simp only [pow_zero, Nat.div_one]
      rw [Nat.mod_eq_of_lt hnk]
    · intro h
      have hl := congrArg List.length h
      simp only [List.length_reverse, List.length_map, List.length_range',
        List.length_nil] at hl
      omega
  · rcases hkl with h | h
    · left
      simp only [List.length_reverse, List.length_map, List.length_range']
      exact h
    · right
      obtain ⟨m, rfl⟩ : ∃ m, k = m + 1 := ⟨k - 1, by omega⟩
      simp only [Nat.add_sub_cancel] at h
      rw [List.head?_reverse, List.range'_concat, List.map_append, List.map_singleton,
        List.getLast?_concat]
      simp only [Nat.zero_add, Nat.one_mul, Option.some.injEq, ne_eq]
      have hpos : 0 < 10 ^ m := Nat.pos_pow_of_pos m (by decide)
      have hq1 : 1 ≤ n / 10 ^ m := (Nat.le_div_iff_mul_le hpos).2 (by omega)
      have hq9 : n / 10 ^ m < 10 := Nat.div_lt_of_lt_mul (by rw [pow_succ] at hnk; omega)
      omega

/-- The text `p2p_test_packet` builds from the text `ds` that `itoa` gives
for the sequence number and from a `$GPGGA` sentence of at least 10 fields,
when every array of the function is large enough for what it receives. -/
theorem p2p_test_packet_text (n : Nat) (ds : List Nat)
    (sentence f1 f2 f3 f4 f5 f6 f7 f8 f9 : List Nat) (others : List (List Nat))
    (rest : List Nat)
    (hitoa : itoa n = some (ds ++ [0])) (hds9 : ds.length ≤ 9)
    (hds0 : ∀ c ∈ ds, c ≠ 0)
    (hfields : split_fields sentence =
      GPGGA :: f1 :: f2 :: f3 :: f4 :: f5 :: f6 :: f7 :: f8 :: f9 :: others)
    (hsnul : ∀ c ∈ sentence, c ≠ 0) (hlen : sentence.length < 100)
    (hstr : f2.length < 20 ∧ f3.length < 20 ∧ f4.length < 20 ∧ f5.length < 20 ∧
      f9.length < 20) :
    p2p_test_packet BUF_SIZE n (sentence ++ 0 :: rest) =
      some (some (ds ++ [44] ++ f2 ++ [44] ++ f3 ++ [44] ++ f4 ++ [44] ++ f5 ++ [44] ++
        f9 ++ [10])) := by
  have hsum := split_fields_length sentence
  rw [hfields] at hsum
  simp only [List.map_cons, List.sum_cons, GPGGA, List.length_cons, List.length_nil] at hsum
  have hget : ∀ (k : Nat) (f : List Nat),
      (GPGGA :: f1 :: f2 :: f3 :: f4 :: f5 :: f6 :: f7 :: f8 :: f9 :: others)[k]? = some f →
      get_nth_parameter (sentence ++ 0 :: rest) k = some (some f) := by
    intro k f hk
    exact get_nth_parameter_field sentence rest hsnul hlen k f (by rw [hfields]; exact hk)
  have hg2 := hget 2 f2 (by simp)
  have hg3 := hget 3 f3 (by simp)
  have hg4 := hget 4 f4 (by simp)
  have hg5 := hget 5 f5 (by simp)
  have hg9 := hget 9 f9 (by simp)
  have hgga := is_gpgga_of_fields sentence rest f1 _ hfields
  unfold p2p_test_packet
  simp only [hitoa, Option.bind_eq_bind, Option.some_bind, strlen_append ds [] hds0,
    get_latitude, get_ns_hemisphere, get_longitude, get_ew_hemisphere, get_altitude,
    hgga, bne_self_eq_false, Bool.false_eq_true, if_false, COMMA, NEWLINE, BUF_SIZE,
    STR_SIZE, List.take_left']
  rw [if_pos ⟨by simp only [List.length_append, List.length_cons, List.length_nil]; omega,
    by omega⟩]
  have c2 : (2 : Int) = ((2 : Nat) : Int) := rfl
  have c3 : (3 : Int) = ((3 : Nat) : Int) := rfl
  have c4 : (4 : Int) = ((4 : Nat) : Int) := rfl
  have c5 : (5 : Int) = ((5 : Nat) : Int) := rfl
  have c9 : (9 : Int) = ((9 : Nat) : Int) := rfl
  rw [c2, c3, c4, c5, c9, hg2, hg3, hg4, hg5, hg9]
  rw [append_field_ok 100 f2 _ 44 (by unfold STR_SIZE; omega)
    (by simp only [List.length_append, List.length_cons, List.length_nil]; omega)]
  simp only []
  rw [append_field_ok 100 f3 _ 44 (by unfold STR_SIZE; omega)
    (by simp only [List.length_append, List.length_cons, List.length_nil]; omega)]
  simp only []
  rw [append_field_ok 100 f4 _ 44 (by unfold STR_SIZE; omega)
    (by simp only [List.length_append, List.length_cons, List.length_nil]; omega)]
  simp only []
  rw [append_field_ok 100 f5 _ 44 (by unfold STR_SIZE; omega)
    (by simp only [List.length_append, List.length_cons, List.length_nil]; omega)]
  simp only []
  rw [append_field_ok 100 f9 _ 10 (by unfold STR_SIZE; omega)
    (by simp only [List.length_append, List.length_cons, List.length_nil]; omega)]

/-- For every sequence number from 0 to 999999999 and every `$GPGGA` sentence
of at least 10 fields `f0` to `f9` that is a NUL-free text of fewer than 100
bytes and whose fields 2, 3, 4, 5 and 9 have fewer than 20 characters,
`p2p_test_packet` succeeds and produces the decimal text of the sequence
number, `f2`, `f3`, `f4`, `f5` and `f9`, separated by five commas and followed
by one newline; the six parts hold no comma. -/
theorem p2p_test_packet_decimal (seq : Int)
    (sentence f1 f2 f3 f4 f5 f6 f7 f8 f9 : List Nat) (others : List (List Nat))
    (rest : List Nat)
    (hseq0 : 0 ≤ seq) (hseq9 : seq < 1000000000)
    (hfields : split_fields sentence =
      GPGGA :: f1 :: f2 :: f3 :: f4 :: f5 :: f6 :: f7 :: f8 :: f9 :: others)
    (hnul : ∀ c ∈ sentence, c ≠ NUL) (hlen : sentence.length < GPS_INFO_SIZE)
    (hstr : f2.length < STR_SIZE ∧ f3.length < STR_SIZE ∧ f4.length < STR_SIZE ∧
      f5.length < STR_SIZE ∧ f9.length < STR_SIZE) :
    ∃ digits,
      p2p_test_packet BUF_SIZE seq (sentence ++ NUL :: rest) =
        some (some (digits ++ [COMMA] ++ f2 ++ [COMMA] ++ f3 ++ [COMMA] ++ f4 ++ [COMMA] ++
          f5 ++ [COMMA] ++ f9 ++ [NEWLINE])) ∧
      (∀ c ∈ digits, 48 ≤ c ∧ c ≤ 57) ∧
      (strtod_digits digits).map Int.ofNat = some seq ∧
      (digits.length = 1 ∨ digits.head? ≠ some 48) ∧
      (∀ c ∈ digits ++ f2 ++ f3 ++ f4 ++ f5 ++ f9, c ≠ COMMA) := by
  simp only [NUL, NEWLINE, COMMA, GPS_INFO_SIZE, STR_SIZE] at hnul hlen hstr ⊢
  obtain ⟨n, rfl⟩ : ∃ n : Nat, seq = n := ⟨seq.toNat, (Int.toNat_of_nonneg hseq0).symm⟩
  obtain ⟨ds, hitoa, _, hds9, hdig, hval, hlead⟩ := itoa_decimal n (by omega)
  have hmem := split_fields_mem sentence
  rw [hfields] at hmem
  refine ⟨ds, ?_, hdig, ?_, hlead, ?_⟩
  · exact p2p_test_packet_text n ds sentence f1 f2 f3 f4 f5 f6 f7 f8 f9 others rest hitoa
      hds9 (fun c hc => by have := (hdig c hc).1; omega) hfields hnul hlen hstr
  · rw [hval]
    rfl
  · intro c hc
    simp only [List.mem_append] at hc
    rcases hc with ((((h | h) | h) | h) | h) | h
    · have := (hdig c h).1
      omega
    · exact (hmem f2 (by simp) c h).1
    · exact (hmem f3 (by simp) c h).1
    · exact (hmem f4 (by simp) c h).1
    · exact (hmem f5 (by simp) c h).1
    · exact (hmem f9 (by simp) c h).1

/-- C15. For the sequence number 1500000000 and the sentence
`$GPGGA,1,2,N,3,E,1,8,1,4` the power of ten of `itoa` leaves the range of
`int`, and `p2p_test_packet` produces `51.111500000000,2,N,3,E,4` with its
newline, whose first field is not the decimal text `1500000000`. -/
theorem test_packet_large_seq :
    p2p_test_packet BUF_SIZE 1500000000
        ([36, 71, 80, 71, 71, 65, 44, 49, 44, 50, 44, 78, 44, 51, 44, 69, 44, 49, 44, 56,
          44, 49, 44, 52] ++ NUL :: []) =
      some (some ([53, 49, 46, 49, 49, 49, 53, 48, 48, 48, 48, 48, 48, 48, 48] ++
        [COMMA] ++ [50] ++ [COMMA] ++ [78] ++ [COMMA] ++ [51] ++ [COMMA] ++ [69] ++
        [COMMA] ++ [52] ++ [NEWLINE])) := by
  decide

/-! ## Events handled one at a time -/

/-- The counters that stand for the packets accepted since the last alarm. -/
theorem main_accept_all_append (seqs : List Int) (s : Int) (w : Window) :
    main_accept_all (seqs ++ [s]) w = main_accept s (main_accept_all seqs w) := by
  unfold main_accept_all
  rw [List.foldl_append]
  rfl

theorem main_event_timer (w : Window) : main_event w Event.timer = Window.initial := by
  simp [main_event, sig_alrm, Window.initial]

/-- After any events handled one at a time from the initial counters, the
counters are those obtained from the initial ones by the packets accepted
since the most recent alarm. -/
theorem main_events_since_timer (events : List Event) (before : List Int) :
    main_events events (main_accept_all before Window.initial) =
      main_accept_all (accepted_since_timer events before) Window.initial := by
  induction events generalizing before with
  | nil => rfl
  | cons e events ih =>
    cases e with
    | accept s =>
      have h := ih (before ++ [s])
      rw [main_accept_all_append] at h
      exact h
    | timer =>
      have h := ih []
      show main_events events (main_event _ Event.timer) = _
      rw [main_event_timer]
      exact h

theorem accepted_since_timer_mem (events : List Event) (before : List Int) :
    ∀ s ∈ accepted_since_timer events before, s ∈ before ∨ Event.accept s ∈ events := by
  induction events generalizing before with
  | nil =>
    intro s hs
    exact Or.inl hs
  | cons e events ih =>
    intro s hs
    cases e with
    | accept t =>
      rcases ih (before ++ [t]) s hs with h | h
      · rcases List.mem_append.1 h with h2 | h2
        · exact Or.inl h2
        · simp only [List.mem_singleton] at h2
          subst h2
          exact Or.inr (List.mem_cons_self _ _)
      · exact Or.inr (List.mem_cons_of_mem _ h)
    | timer =>
      rcases ih [] s hs with h | h
      · cases h
      · exact Or.inr (List.mem_cons_of_mem _ h)

theorem accepted_since_timer_length (events : List Event) (before : List Int) :
    (accepted_since_timer events before).length ≤ before.length + events.length := by
  induction events generalizing before with
  | nil => simp [accepted_since_timer]
  | cons e events ih =>
    cases e with
    | accept t =>
      have h := ih (before ++ [t])
      simp only [List.length_append, List.length_cons, List.length_nil] at h ⊢
      show (accepted_since_timer events (before ++ [t])).length ≤ _
      omega
    | timer =>
      have h := ih []
      simp only [List.length_nil, List.length_cons] at h ⊢
      show (accepted_since_timer events []).length ≤ _
      omega

/-- The counters after a list of accepted packets with sequence numbers that
are non-negative values of `int`: the initial ones for no packet, otherwise
the number of packets and the first and the last sequence number. -/
theorem main_accept_all_initial (seqs : List Int)
    (hrange : ∀ s ∈ seqs, 0 ≤ s ∧ s ≤ 2147483647) (hlen : seqs.length ≤ 2147483647) :
    (main_accept_all seqs Window.initial).cnt = seqs.length ∧
      (seqs = [] → (main_accept_all seqs Window.initial).first = -1 ∧
        (main_accept_all seqs Window.initial).last = -1) ∧
      (∀ s, seqs.head? = some s → (main_accept_all seqs Window.initial).first = s) ∧
      (∀ s, seqs.getLast? = some s → (main_accept_all seqs Window.initial).last = s) := by
  have hwrap : ∀ s ∈ seqs, wrap_int s = s := fun s hs =>
    wrap_int_of_range s (by have := (hrange s hs).1; omega)
      (by have := (hrange s hs).2; omega)
  refine ⟨?_, ?_, ?_, ?_⟩
  · have h := main_accept_all_cnt seqs Window.initial (le_refl _)
      (by simp only [Window.initial]; omega)
    rw [h]
    simp [Window.initial]
  · intro h
    subst h
    exact ⟨rfl, rfl⟩
  · intro s hs
    cases seqs with
    | nil => cases hs
    | cons t seqs =>
      simp only [List.head?_cons, Option.some.injEq] at hs
      subst hs
      have ht := hrange t (List.mem_cons_self _ _)
      have hf : (main_accept t Window.initial).first = t := by
        simp only [main_accept, Window.initial]
        rw [if_pos (by decide)]
        exact hwrap t (List.mem_cons_self _ _)
      rw [main_accept_all_cons, main_accept_all_first _ _ (by rw [hf]; exact ht.1), hf]
  · intro s hs
    have hne : seqs ≠ [] := by
      intro h
      subst h
      cases hs
    rw [main_accept_all_last seqs _ hne]
    rw [List.getLast?_eq_getLast _ hne] at hs
    simp only [Option.some.injEq] at hs
    rw [hs]
    exact hwrap s (by rw [← hs]; exact List.getLast_mem hne)

/-- C16, as amended. For every list of at most `INT_MAX` events, each a
packet accepted with a sequence number that is a non-negative value of `int`,
or an alarm, handled one whole event at a time from the initial counters, and
at every point `k` of the list: `cnt` is
the number of packets accepted since the most recent alarm; when there is
such a packet, `first` is the sequence number of the first of them and `last`
that of the most recent one; when there is none, `first` and `last` are
unset. -/
theorem window_follows_events (events : List Event) (k : Nat)
    (hrange : ∀ e ∈ events, e.in_int_range = true)
    (hlen : (events.length : Int) ≤ INT_MAX) :
    (main_events (events.take k) Window.initial).cnt =
        (accepted_since_timer (events.take k) []).length ∧
      (∀ s, (accepted_since_timer (events.take k) []).head? = some s →
        (main_events (events.take k) Window.initial).first = s) ∧
      (∀ s, (accepted_since_timer (events.take k) []).getLast? = some s →
        (main_events (events.take k) Window.initial).last = s) ∧
      (accepted_since_timer (events.take k) [] = [] →
        (main_events (events.take k) Window.initial).first = -1 ∧
          (main_events (events.take k) Window.initial).last = -1) := by
  unfold INT_MAX at hlen
  have hrun := main_events_since_timer (events.take k) []
  have hrun2 : main_events (events.take k) Window.initial =
      main_accept_all (accepted_since_timer (events.take k) []) Window.initial := hrun
  have hmem : ∀ s ∈ accepted_since_timer (events.take k) [], 0 ≤ s ∧ s ≤ 2147483647 := by
    intro s hs
    rcases accepted_since_timer_mem (events.take k) [] s hs with h | h
    · cases h
    · have hs2 := hrange _ (List.mem_of_mem_take h)
      simp only [Event.in_int_range, INT_MAX, decide_eq_true_eq] at hs2
      exact hs2
  have hl := accepted_since_timer_length (events.take k) []
  have hl2 : (events.take k).length ≤ events.length := by
    rw [List.length_take]
    exact Nat.min_le_right _ _
  have h := main_accept_all_initial (accepted_since_timer (events.take k) []) hmem
    (by simp only [List.length_nil] at hl; omega)
  rw [hrun2]
  exact ⟨h.1, h.2.2.1, h.2.2.2, h.2.1⟩

/-- Witness of C16: the packets 5 and 6, an alarm, and the packets 9, 10 and
11; after the whole list the counters are 3, 9 and 11. -/
theorem window_follows_events_witness :
    (main_events [Event.accept 5, Event.accept 6, Event.timer, Event.accept 9,
        Event.accept 10, Event.accept 11] Window.initial).cnt = 3 ∧
      (main_events [Event.accept 5, Event.accept 6, Event.timer, Event.accept 9,
        Event.accept 10, Event.accept 11] Window.initial).first = 9 ∧
      (main_events [Event.accept 5, Event.accept 6, Event.timer, Event.accept 9,
        Event.accept 10, Event.accept 11] Window.initial).last = 11 :=
  have h := window_follows_events [Event.accept 5, Event.accept 6, Event.timer,
    Event.accept 9, Event.accept 10, Event.accept 11] 6 (by decide) (by decide)
  ⟨h.1, h.2.1 9 rfl, h.2.2.1 11 rfl⟩


/-- C16 as stated fails for the events "packet 3000000000, packet 7", whose
sequence numbers are non-negative: the `int` counter `first` receives the low
32 bits of 3000000000, which is -1294967296, and the second packet sets it to
7, so that after the two events `first` is not the sequence number of the
first packet accepted since the last alarm. -/
theorem window_events_beyond_int :
    accepted_since_timer [Event.accept 3000000000, Event.accept 7] [] = [3000000000, 7] ∧
      main_events [Event.accept 3000000000] Window.initial =
        { cnt := 1, first := -1294967296, last := -1294967296 } ∧
      main_events [Event.accept 3000000000, Event.accept 7] Window.initial =
        { cnt := 2, first := 7, last := 7 } := by
  decide
/-! ## The getters of gps_analyzer.c -/

/-- On a sentence followed by a NUL, `is_gpgga` tells whether the sentence begins
with the six characters of the tag. -/
theorem is_gpgga_append (s rest : List Nat) :
    is_gpgga (s ++ 0 :: rest) = true ↔ s.take 6 = GPGGA := by
  unfold is_gpgga
  rw [beq_iff_eq]
  rcases Nat.lt_or_ge s.length 6 with h | h
  · constructor
    · intro h2
      have h0 : (0 : Nat) ∈ (s ++ 0 :: rest).take 6 := by
        rw [List.take_append_eq_append_take]
        apply List.mem_append_right
        obtain ⟨m, hm⟩ : ∃ m, 6 - s.length = m + 1 := ⟨6 - s.length - 1, by omega⟩
        rw [hm, List.take_succ_cons]
        exact List.mem_cons_self _ _
      rw [h2] at h0
      exact absurd h0 (by decide)
    · intro h2
      have := congrArg List.length h2
      rw [List.length_take] at this
      simp only [GPGGA, List.length_cons, List.length_nil] at this
      omega
  · rw [List.take_append_of_le_length h]

/-- A sentence begins with its tag. -/
theorem split_fields_head_take (s f : List Nat) (fs : List (List Nat))
    (h : split_fields s = f :: fs) : s.take f.length = f := by
  induction s generalizing f with
  | nil =>
    simp [split_fields] at h
    rw [h.1]
    rfl
  | cons d s ih =>
    by_cases hd : d = 44
    · subst hd
      rw [split_fields_comma] at h
      injection h with h1 h2
      subst h1
      rfl
    · obtain ⟨a, as, ha⟩ := split_fields_exists s
      rw [split_fields_other d s a as hd ha] at h
      injection h with h1 h2
      subst h1 h2
      rw [List.length_cons, List.take_succ_cons, ih a ha]

theorem stored_in_null (size : Nat) : stored_in size (some none) = some none := rfl

/-- Each getter on a sentence that begins with the tag: the result of
`get_nth_parameter` for its field. -/
theorem getters_of_gpgga (cmd : List Nat) (h : is_gpgga cmd = true) :
    get_utc_time cmd = get_nth_parameter cmd 1 ∧
      get_latitude cmd = get_nth_parameter cmd 2 ∧
      get_ns_hemisphere cmd = get_nth_parameter cmd 3 ∧
      get_longitude cmd = get_nth_parameter cmd 4 ∧
      get_ew_hemisphere cmd = get_nth_parameter cmd 5 ∧
      get_altitude cmd = get_nth_parameter cmd 9 := by
  simp [get_utc_time, get_latitude, get_ns_hemisphere, get_longitude, get_ew_hemisphere,
    get_altitude, h]

/-- Each getter on a sentence that does not begin with the tag: `NULL`. -/
theorem getters_of_other (cmd : List Nat) (h : is_gpgga cmd = false) :
    get_utc_time cmd = some none ∧
      get_latitude cmd = some none ∧
      get_ns_hemisphere cmd = some none ∧
      get_longitude cmd = some none ∧
      get_ew_hemisphere cmd = some none ∧
      get_altitude cmd = some none := by
  simp [get_utc_time, get_latitude, get_ns_hemisphere, get_longitude, get_ew_hemisphere,
    get_altitude, h]

/-- C18, as amended. For every NUL-terminated sentence of fewer than 100
bytes, with fields counted from 0: when the sentence begins with the six
characters `$GPGGA`, as every sentence tagged `$GPGGA` does, `get_utc_time`,
`get_latitude`, `get_ns_hemisphere`, `get_longitude`, `get_ew_hemisphere` and
`get_altitude` return the text of the fields 1, 2, 3, 4, 5 and 9 that the
sentence has; when it does not begin with `$GPGGA`, each of them returns
`NULL`. -/
theorem getters_select_fields (s rest : List Nat)
    (hnul : ∀ c ∈ s, c ≠ NUL) (hlen : s.length < GPS_INFO_SIZE) :
    ((split_fields s).head? = some GPGGA → s.take 6 = GPGGA) ∧
      (s.take 6 = GPGGA →
        (∀ f, (split_fields s)[1]? = some f →
          get_utc_time (s ++ NUL :: rest) = some (some f)) ∧
        (∀ f, (split_fields s)[2]? = some f →
          get_latitude (s ++ NUL :: rest) = some (some f)) ∧
        (∀ f, (split_fields s)[3]? = some f →
          get_ns_hemisphere (s ++ NUL :: rest) = some (some f)) ∧
        (∀ f, (split_fields s)[4]? = some f →
          get_longitude (s ++ NUL :: rest) = some (some f)) ∧
        (∀ f, (split_fields s)[5]? = some f →
          get_ew_hemisphere (s ++ NUL :: rest) = some (some f)) ∧
        (∀ f, (split_fields s)[9]? = some f →
          get_altitude (s ++ NUL :: rest) = some (some f))) ∧
      (s.take 6 ≠ GPGGA →
        get_utc_time (s ++ NUL :: rest) = some none ∧
        get_latitude (s ++ NUL :: rest) = some none ∧
        get_ns_hemisphere (s ++ NUL :: rest) = some none ∧
        get_longitude (s ++ NUL :: rest) = some none ∧
        get_ew_hemisphere (s ++ NUL :: rest) = some none ∧
        get_altitude (s ++ NUL :: rest) = some none) := by
  simp only [NUL, GPS_INFO_SIZE] at hnul hlen ⊢
  refine ⟨?_, ?_, ?_⟩
  · intro h
    obtain ⟨f, fs, hf⟩ := split_fields_exists s
    rw [hf] at h
    simp only [List.head?_cons, Option.some.injEq] at h
    subst h
    exact split_fields_head_take s GPGGA fs hf
  · intro h
    have hg := (is_gpgga_append s rest).2 h
    obtain ⟨h1, h2, h3, h4, h5, h9⟩ := getters_of_gpgga _ hg
    rw [h1, h2, h3, h4, h5, h9]
    exact ⟨fun f hf => get_nth_parameter_field s rest hnul hlen 1 f hf,
      fun f hf => get_nth_parameter_field s rest hnul hlen 2 f hf,
      fun f hf => get_nth_parameter_field s rest hnul hlen 3 f hf,
      fun f hf => get_nth_parameter_field s rest hnul hlen 4 f hf,
      fun f hf => get_nth_parameter_field s rest hnul hlen 5 f hf,
      fun f hf => get_nth_parameter_field s rest hnul hlen 9 f hf⟩
  · intro h
    have hg : is_gpgga (s ++ 0 :: rest) = false := by
      cases hb : is_gpgga (s ++ 0 :: rest) with
      | false => rfl
      | true => exact absurd ((is_gpgga_append s rest).1 hb) h
    exact getters_of_other _ hg

/-- Witness of C18: the sentence `$GPGGA,1,2,N,3,E,1,8,1,4`, whose altitude
field is `4`. -/
theorem getters_select_fields_witness :
    get_altitude
        ([36, 71, 80, 71, 71, 65, 44, 49, 44, 50, 44, 78, 44, 51, 44, 69, 44, 49, 44, 56,
          44, 49, 44, 52] ++ NUL :: [7]) = some (some [52]) :=
  ((getters_select_fields
    [36, 71, 80, 71, 71, 65, 44, 49, 44, 50, 44, 78, 44, 51, 44, 69, 44, 49, 44, 56,
      44, 49, 44, 52] [7] (by decide) (by decide)).2.1 (by decide)).2.2.2.2.2 [52] (by decide)

/-- C18 as stated fails for the sentence `$GPGGAX,1,2`: its tag is `$GPGGAX`,
not `$GPGGA`, and `get_utc_time` returns its field 1 and `get_latitude` its
field 2 instead of `NULL`. -/
theorem getters_accept_longer_tag :
    (split_fields [36, 71, 80, 71, 71, 65, 88, 44, 49, 44, 50]).head? =
        some [36, 71, 80, 71, 71, 65, 88] ∧
      get_utc_time ([36, 71, 80, 71, 71, 65, 88, 44, 49, 44, 50] ++ NUL :: []) =
        some (some [49]) ∧
      get_latitude ([36, 71, 80, 71, 71, 65, 88, 44, 49, 44, 50] ++ NUL :: []) =
        some (some [50]) := by
  decide

/-! ## get_gps_info -/

/-- What `get_gps_info` returns on a `$GPGGA` sentence of at least 10 fields
and fewer than 100 bytes, whatever follows its terminator, when the fields
1, 2, 3, 4, 5 and 9 have fewer than 20 characters. -/
theorem get_gps_info_fields {D : Type} (strtod : List Nat → D)
    (s f1 f2 f3 f4 f5 f6 f7 f8 f9 : List Nat) (others : List (List Nat)) (rest : List Nat)
    (hfields : split_fields s =
      GPGGA :: f1 :: f2 :: f3 :: f4 :: f5 :: f6 :: f7 :: f8 :: f9 :: others)
    (hnul : ∀ c ∈ s, c ≠ 0) (hlen : s.length < 100)
    (hfit : f1.length < 20 ∧ f2.length < 20 ∧ f3.length < 20 ∧ f4.length < 20 ∧
      f5.length < 20 ∧ f9.length < 20) :
    get_gps_info strtod (s ++ 0 :: rest) =
      some (some
        { utc_time := strtod f1
          latitude := strtod f2
          ns_hemisphere := first_char f3
          longitude := strtod f4
          ew_hemisphere := first_char f5
          altitude := strtod f9 }) := by
  have hgg := is_gpgga_of_fields s rest f1 _ hfields
  obtain ⟨h1, h2, h3, h4, h5, h9⟩ := getters_of_gpgga _ hgg
  have hget : ∀ (k : Nat) (f : List Nat),
      (GPGGA :: f1 :: f2 :: f3 :: f4 :: f5 :: f6 :: f7 :: f8 :: f9 :: others)[k]? = some f →
      f.length < 20 →
      stored_in PARAM_SIZE (get_nth_parameter (s ++ 0 :: rest) k) = some (some f) := by
    intro k f hk hf
    rw [get_nth_parameter_field s rest hnul hlen k f (by rw [hfields]; exact hk)]
    exact stored_in_fits _ _ (by unfold PARAM_SIZE; omega)
  have e1 := hget 1 f1 (by simp) hfit.1
  have e2 := hget 2 f2 (by simp) hfit.2.1
  have e3 := hget 3 f3 (by simp) hfit.2.2.1
  have e4 := hget 4 f4 (by simp) hfit.2.2.2.1
  have e5 := hget 5 f5 (by simp) hfit.2.2.2.2.1
  have e9 := hget 9 f9 (by simp) hfit.2.2.2.2.2
  simp only [Nat.cast_ofNat, Nat.cast_one] at e1 e2 e3 e4 e5 e9
  unfold get_gps_info
  rw [h1, h2, h3, h4, h5, h9, e1, e2, e3, e4, e5, e9]

/-- C20, as amended. For every `$GPGGA` sentence of at least 10 fields that is
a NUL-free text of fewer than 100 bytes and whose fields 1, 2, 3, 4, 5 and 9
have fewer than 20 characters, `get_gps_info` succeeds whatever the time,
latitude, longitude and altitude fields contain: it stores for each of them
what `strtod` returns for its text and does not ask whether a number was
read. -/
theorem get_gps_info_takes_any_number {D : Type} (strtod : List Nat → D)
    (s f1 f2 f3 f4 f5 f6 f7 f8 f9 : List Nat) (others : List (List Nat)) (rest : List Nat)
    (hfields : split_fields s =
      GPGGA :: f1 :: f2 :: f3 :: f4 :: f5 :: f6 :: f7 :: f8 :: f9 :: others)
    (hnul : ∀ c ∈ s, c ≠ NUL) (hlen : s.length < GPS_INFO_SIZE)
    (hfit : f1.length < PARAM_SIZE ∧ f2.length < PARAM_SIZE ∧ f3.length < PARAM_SIZE ∧
      f4.length < PARAM_SIZE ∧ f5.length < PARAM_SIZE ∧ f9.length < PARAM_SIZE) :
    get_gps_info strtod (s ++ NUL :: rest) =
      some (some
        { utc_time := strtod f1
          latitude := strtod f2
          ns_hemisphere := first_char f3
          longitude := strtod f4
          ew_hemisphere := first_char f5
          altitude := strtod f9 }) :=
  get_gps_info_fields strtod s f1 f2 f3 f4 f5 f6 f7 f8 f9 others rest hfields hnul hlen hfit

/-- Witness of C20: the sentence `$GPGGA,abc,,N,x,E,1,8,1,` with an
alphabetic time and longitude and an empty latitude and altitude. -/
theorem get_gps_info_takes_any_number_witness :
    get_gps_info (fun s => (strtod_digits s).getD 0)
        ([36, 71, 80, 71, 71, 65, 44, 97, 98, 99, 44, 44, 78, 44, 120, 44, 69, 44, 49, 44,
          56, 44, 49, 44] ++ NUL :: []) =
      some (some
        { utc_time := (strtod_digits [97, 98, 99]).getD 0
          latitude := (strtod_digits []).getD 0
          ns_hemisphere := first_char [78]
          longitude := (strtod_digits [120]).getD 0
          ew_hemisphere := first_char [69]
          altitude := (strtod_digits []).getD 0 }) :=
  get_gps_info_takes_any_number (fun s => (strtod_digits s).getD 0)
    [36, 71, 80, 71, 71, 65, 44, 97, 98, 99, 44, 44, 78, 44, 120, 44, 69, 44, 49, 44,
      56, 44, 49, 44]
    [97, 98, 99] [] [78] [120] [69] [49] [56] [49] [] [] []
    (by decide) (by decide) (by decide) (by decide)

/-- C20 as stated fails for the sentence `$GPGGA,abc,,N,x,E,1,8,1,`: its time
field is `abc`, its longitude field is `x` and its latitude and altitude
fields are empty, and `get_gps_info` does not return `NULL` but a position
(here with 0 for each text that is not a number). -/
theorem get_gps_info_alphabetic_fields :
    get_gps_info (fun s => (strtod_digits s).getD 0)
        ([36, 71, 80, 71, 71, 65, 44, 97, 98, 99, 44, 44, 78, 44, 120, 44, 69, 44, 49, 44,
          56, 44, 49, 44] ++ List.replicate 76 NUL) =
      some (some
        { utc_time := 0, latitude := 0, ns_hemisphere := 78, longitude := 0,
          ew_hemisphere := 69, altitude := 0 }) := by
  decide


/-! ## read_line without a newline, and with a carriage return -/

/-- The loop of `read_line` on an input whose first `k` bytes hold no newline
stores these bytes from index `i` on and ends with `i + k`. -/
theorem read_line_loop_full (body more pre post : List Nat)
    (hnl : ∀ c ∈ body, c ≠ 10) (hpost : body.length ≤ post.length) :
    read_line_loop body.length pre.length (pre ++ post) (body ++ more) =
      (pre.length + body.length, pre ++ body ++ post.drop body.length, more) := by
  induction body generalizing pre post with
  | nil => simp [read_line_loop]
  | cons c body ih =>
    obtain ⟨x, post, rfl⟩ : ∃ x p, post = x :: p := by
      cases post with
      | nil => simp at hpost
      | cons x p => exact ⟨x, p, rfl⟩
    have hc : c ≠ 10 := hnl c (List.mem_cons_self _ _)
    simp only [List.length_cons] at hpost
    rw [List.length_cons, List.cons_append, read_line_loop_succ, read_byte_cons, set_append_cons]
    simp only [getD_append_cons, if_neg hc]
    have h := ih (pre ++ [c]) post (fun d hd => hnl d (List.mem_cons_of_mem _ hd)) (by omega)
    simp only [List.length_append, List.length_singleton, List.append_assoc,
      List.singleton_append] at h
    rw [h]
    simp only [List.drop_succ_cons, List.append_assoc, List.cons_append, List.nil_append,
      List.singleton_append]
    refine Prod.ext ?_ rfl
    simp only
    omega

/-- What `read_line` does when the first `size - 1` bytes of the input hold no
newline: it stores them, and then looks at `buf[size - 1]`, which it has not
written. It fails when that byte is not a newline. -/
theorem read_line_full (body more buf : List Nat) (size : Nat)
    (hnl : ∀ c ∈ body, c ≠ 10) (hsize : body.length + 1 = size) (hbuf : size ≤ buf.length) :
    read_line (body ++ more) buf size =
      if buf.getD (size - 1) 0 ≠ 10 then some (-1, body ++ buf.drop body.length, more)
      else some ((body.length : Int), body ++ 0 :: buf.drop size, more) := by
  have h := read_line_loop_full body more [] buf hnl (by omega)
  simp only [List.length_nil, List.nil_append, Nat.zero_add] at h
  obtain ⟨x, post, hx⟩ : ∃ x p, buf.drop body.length = x :: p := by
    cases hd : buf.drop body.length with
    | nil =>
      have := congrArg List.length hd
      simp at this
      omega
    | cons x p => exact ⟨x, p, rfl⟩
  have hbuf2 : buf = buf.take body.length ++ x :: post := by
    rw [← hx, List.take_append_drop]
  have hlen : (buf.take body.length).length = body.length := by
    rw [List.length_take]
    omega
  have hget : buf.getD (size - 1) 0 = x := by
    have h1 : size - 1 = (buf.take body.length).length := by omega
    rw [h1]
    nth_rewrite 1 [hbuf2]
    exact getD_append_cons _ _ _ _
  have hdrop : buf.drop size = post := by
    have h2 : size = body.length + 1 := by omega
    rw [h2, ← List.drop_drop, hx]
    rfl
  unfold read_line
  rw [if_pos ⟨hbuf, by omega⟩]
  have hsz : size - 1 = body.length := by omega
  simp only [hsz] at hget ⊢
  simp only [h, hx, NEWLINE, NUL, getD_append_cons, set_append_cons, hget, hdrop]

/-- C22. With `size` 3, a 3-byte buffer whose last byte is a newline left from
before, and the input `abc`, which has no newline: `read_line` stores `a` and
`b`, finds the old newline in `buf[2]`, and returns 2 with the string `ab`
instead of failing. -/
theorem read_line_stale_newline :
    read_line [97, 98, 99] [0, 0, NEWLINE] 3 = some (2, [97, 98, NUL], [99]) := by
  decide

/-- C23, as amended. For every input whose first newline is at offset
`k ≤ size - 2` and every buffer of at least `size` bytes, `read_line` consumes
the `k + 1` bytes up to and including the newline, returns `k`, and leaves in
`buf` the `k` bytes before the newline, as they came, followed by a NUL (a
carriage return before the newline stays in the text); when none of the `k`
bytes is a NUL, the string in `buf` has length `k`. -/
theorem read_line_keeps_line (body more buf : List Nat) (size : Nat)
    (hnl : ∀ c ∈ body, c ≠ NEWLINE) (hsize : body.length + 2 ≤ size)
    (hbuf : size ≤ buf.length) :
    read_line (body ++ NEWLINE :: more) buf size =
        some ((body.length : Int), body ++ NUL :: buf.drop (body.length + 1), more) ∧
      ((∀ c ∈ body, c ≠ NUL) →
        strlen (body ++ NUL :: buf.drop (body.length + 1)) = some body.length) :=
  ⟨read_line_line body more buf size hnl (by omega) hbuf,
    fun h => strlen_append body _ h⟩

/-- The line `ab` followed by a carriage return and a newline, read with
`size` 100 into a 100-byte buffer: the string left in the buffer is the three
bytes `a`, `b` and the carriage return. -/
theorem read_line_keeps_line_witness :
    read_line ([97, 98, 13] ++ NEWLINE :: [99]) (List.replicate 100 7) 100 =
        some (3, [97, 98, 13] ++ NUL :: (List.replicate 100 7).drop 4, [99]) ∧
      strlen ([97, 98, 13] ++ NUL :: (List.replicate 100 7).drop 4) = some 3 :=
  have h := read_line_keeps_line [97, 98, 13] [99] (List.replicate 100 7) 100
    (by decide) (by decide) (by simp)
  ⟨h.1, h.2 (by decide)⟩

/-- C23 as stated fails for the line `ab` followed by a carriage return and a
newline: `read_line` returns 3 and the string it leaves in `buf` has the
three bytes `a`, `b` and the carriage return, which is not stripped. -/
theorem read_line_keeps_carriage_return :
    (read_line [97, 98, CARRIAGE_RETURN, NEWLINE] (List.replicate 100 0) 100).map
        (fun r => (r.1, strlen r.2.1, r.2.1.take 4)) =
      some (3, some 3, [97, 98, CARRIAGE_RETURN, NUL]) := by
  decide

/-! ## get_nth_parameter and what follows the terminator -/

/-- C26. A 100-byte buffer holds the sentence `9`, its terminator, and after
it the bytes `2,3,4` left from a longer sentence. The sentence has one field,
yet for `n = 1` `get_nth_parameter` counts the comma that follows the
terminator and returns the text `3` instead of `NULL`. -/
theorem get_nth_parameter_past_terminator :
    strlen ([57, NUL, 50, COMMA, 51, COMMA, 52, NUL] ++ List.replicate 92 NUL) = some 1 ∧
      split_fields [57] = [[57]] ∧
      get_nth_parameter ([57, NUL, 50, COMMA, 51, COMMA, 52, NUL] ++ List.replicate 92 NUL) 1 =
        some (some [51]) := by
  decide

/-! ## itoa -/

/-- C27. For the number -12 `itoa` stores the two characters `/.`, and for
1500000000 the fifteen characters `51.111500000000`: neither is the decimal
text of the number. -/
theorem itoa_negative_and_large :
    itoa (-12) = some [47, 46, NUL] ∧
      itoa 1500000000 =
        some [53, 49, 46, 49, 49, 49, 53, 48, 48, 48, 48, 48, 48, 48, 48, NUL] := by
  decide

/-- C28. For every `n` with `0 ≤ n < 10 ^ 9`, `itoa` stores a non-empty text
of decimal digits and its terminator; the text begins with the digit `0` only
when it is the single digit `0`, and read as a decimal number it gives `n`
back. Each power of ten up to `10 ^ 9`, computed as the one before times 10,
stays in the range of `int`. -/
theorem itoa_round_trip (n : Int) (h0 : 0 ≤ n) (h9 : n < 1000000000) :
    ∃ ds, itoa n = some (ds ++ [NUL]) ∧ ds ≠ [] ∧ (∀ c ∈ ds, 48 ≤ c ∧ c ≤ 57) ∧
      (ds.head? = some 48 → ds = [48]) ∧
      (strtod_digits ds).map Int.ofNat = some n ∧
      ∀ i, i < 9 → wrap_int (((10 ^ i : Nat) : Int) * 10) = ((10 ^ (i + 1) : Nat) : Int) := by
  obtain ⟨m, rfl⟩ : ∃ m : Nat, n = m := ⟨n.toNat, by omega⟩
  obtain ⟨ds, hitoa, h1, _, hdig, hval, hlead⟩ := itoa_decimal m (by omega)
  refine ⟨ds, hitoa, ?_, hdig, ?_, ?_, fun i hi => wrap_int_pow10 i (by omega)⟩
  · intro h
    rw [h] at h1
    simp at h1
  · intro h48
    rcases hlead with h | h
    · cases ds with
      | nil => simp at h
      | cons d ds =>
        cases ds with
        | nil =>
          simp only [List.head?_cons, Option.some.injEq] at h48
          rw [h48]
        | cons e ds => simp at h
    · exact absurd h48 h
  · rw [hval]
    rfl

/-- The number 907: `itoa` stores the digits `9`, `0`, `7`. -/
theorem itoa_round_trip_witness :
    ∃ ds, itoa 907 = some (ds ++ [NUL]) ∧ ds ≠ [] ∧ (∀ c ∈ ds, 48 ≤ c ∧ c ≤ 57) ∧
      (ds.head? = some 48 → ds = [48]) ∧
      (strtod_digits ds).map Int.ofNat = some 907 ∧
      ∀ i, i < 9 → wrap_int (((10 ^ i : Nat) : Int) * 10) = ((10 ^ (i + 1) : Nat) : Int) :=
  itoa_round_trip 907 (by decide) (by decide)

/-! ## read_raw_gps -/

set_option maxRecDepth 20000 in
/-- C29. On an input of 101 letters `A`, which has no newline, and a 100-byte
array, `read_raw_gps` stores outside the array. On a 101-byte array whose last
byte is 7 it returns -1 and leaves 100 letters `A` followed by a NUL: the
byte of index 100 has been written. -/
theorem read_raw_gps_writes_index_100 :
    read_raw_gps (List.replicate 101 65) (List.replicate 100 0) = none ∧
      read_raw_gps (List.replicate 101 65) (List.replicate 100 0 ++ [7]) =
        some (-1, List.replicate 100 65 ++ [NUL], []) := by
  decide

/-! ## get_distance -/

/-- For all arguments, `get_distance`, computed without rounding, is one
hundredth of the haversine expression
`6378137 * 2 * asin(sqrt(sin^2(dlat/2) + cos(lat1) * cos(lat2) * sin^2(dlng/2)))`
in which the angles are the arguments times `3.14159 / 180`: the central
angle is multiplied by `EARTH_RADIUS * 10`, which is 63781.37. -/
theorem get_distance_hundredth {D : Type} [Field D] [CharZero D] (sin cos asin sqrt : D → D)
    (lat1 lng1 lat2 lng2 : D) :
    get_distance sin cos asin sqrt lat1 lng1 lat2 lng2 =
        haversine_spec PI sin cos asin sqrt 6378137 lat1 lng1 lat2 lng2 / 100 ∧
      (EARTH_RADIUS * 10 : D) = 6378137 / 100 := by
  unfold get_distance haversine_spec rad EARTH_RADIUS
  constructor
  · ring
  · norm_num

/-- C21. For the two points of the equator at longitude 180 and 0, half the
equator apart, with the functions of the real numbers and no rounding: the
formula of the claim gives `6378137 * π`, about 20037508 metres, and
`get_distance` gives `3.14159 * 63781.37`, about 200375, a hundred times
less. -/
theorem get_distance_not_metres :
    get_distance Real.sin Real.cos Real.arcsin Real.sqrt 0 180 0 0 =
        314159 / 100000 * (6378137 / 100) ∧
      haversine_spec Real.pi Real.sin Real.cos Real.arcsin Real.sqrt 6378137 0 180 0 0 =
        6378137 * Real.pi ∧
      get_distance Real.sin Real.cos Real.arcsin Real.sqrt 0 180 0 0 * 99 <
        haversine_spec Real.pi Real.sin Real.cos Real.arcsin Real.sqrt 6378137 0 180 0 0 := by
  have hpi := Real.pi_gt_d6
  have h1 : get_distance Real.sin Real.cos Real.arcsin Real.sqrt 0 180 0 0 =
      314159 / 100000 * (6378137 / 100) := by
    unfold get_distance rad PI EARTH_RADIUS
    simp only [zero_mul, zero_div, sub_zero, sub_self, Real.sin_zero, Real.cos_zero, one_mul]
    have hx : (180 : ℝ) * (314159 / 100000) / 180 / 2 = 314159 / 200000 := by norm_num
    rw [hx]
    have h0 : (0 : ℝ) ≤ Real.sin (314159 / 200000) := by
      apply Real.sin_nonneg_of_nonneg_of_le_pi
      · norm_num
      · linarith
    simp only [ne_eq, OfNat.ofNat_ne_zero, not_false_eq_true, zero_pow, zero_add]
    rw [Real.sqrt_sq h0, Real.arcsin_sin (by linarith) (by linarith)]
    norm_num
  have h2 : haversine_spec Real.pi Real.sin Real.cos Real.arcsin Real.sqrt 6378137 0 180 0 0 =
      6378137 * Real.pi := by
    unfold haversine_spec
    simp only [zero_mul, zero_div, sub_zero, sub_self, Real.sin_zero, Real.cos_zero, one_mul]
    have hx : (180 : ℝ) * Real.pi / 180 / 2 = Real.pi / 2 := by ring
    rw [hx, Real.sin_pi_div_two]
    simp only [ne_eq, OfNat.ofNat_ne_zero, not_false_eq_true, zero_pow, zero_add,
      one_pow, Real.sqrt_one, Real.arcsin_one]
    ring
  refine ⟨h1, h2, ?_⟩
  rw [h1, h2]
  linarith

/-! ## p2p_sender -/

set_option maxRecDepth 20000 in
/-- C24. The GPS input is the sentence `$GPGGA,1,2` with its carriage return
and newline. `read_raw_gps` leaves the sentence followed by zeros, on which
`p2p_test_packet` with `seq = 0` returns `NULL`, the sentence having no field
3. `p2p_sender` nevertheless hands the text `0,2,` that `p2p_test_packet` had
written so far to `p2p_send_packet`, which writes it on the LoRa port in four
frames, and `seq` becomes 1. -/
theorem sender_transmits_after_null :
    read_raw_gps [36, 71, 80, 71, 71, 65, 44, 49, 44, 50, CARRIAGE_RETURN, NEWLINE]
        (List.replicate BUF_SIZE NUL) =
      some (11, [36, 71, 80, 71, 71, 65, 44, 49, 44, 50] ++ List.replicate 90 NUL, []) ∧
    p2p_test_packet BUF_SIZE 0
        ([36, 71, 80, 71, 71, 65, 44, 49, 44, 50] ++ List.replicate 90 NUL) = some none ∧
    p2p_sender 1 [36, 71, 80, 71, 71, 65, 44, 49, 44, 50, CARRIAGE_RETURN, NEWLINE] =
      some { seq := 1, sent := [[48, COMMA, 50, COMMA]],
             calls := [Effect.change_vmin 1, Effect.write [48],
                       Effect.change_vmin 1, Effect.write [COMMA],
                       Effect.change_vmin 1, Effect.write [50],
                       Effect.change_vmin 1, Effect.write [COMMA]],
             gps_fd := [], exited := false } := by
  decide

/-- The three statements, one after the other, are the update `main_accept`. -/
theorem main_accept_statements_eq (sequence : Int) (w : Window) :
    (main_accept_statements sequence).foldl (fun w f => f w) w = main_accept sequence w := rfl

/-- An alarm delivered before the update is the handler followed by the whole
update, and an alarm delivered after it is the whole update followed by the
handler. -/
theorem main_accept_alarm_whole (sequence : Int) (w : Window) :
    main_accept_alarm 0 sequence w =
        some (some (prr w), main_accept sequence Window.initial) ∧
      main_accept_alarm 3 sequence w =
        some (some (prr (main_accept sequence w)), Window.initial) := by
  constructor
  · simp [main_accept_alarm, main_accept_statements, sig_alrm, main_accept, main_set_first,
      main_set_last, main_increment_cnt, Window.initial]
  · simp [main_accept_alarm, main_accept_statements, sig_alrm, main_accept, main_set_first,
      main_set_last, main_increment_cnt, Window.initial]

/-- C17. The packet with sequence number 5 is accepted from the initial
counters. Handled as whole events, the alarm before the packet prints 0 and
leaves the counters 1, 5, 5, and the alarm after it prints 5 and leaves 0,
-1, -1. Delivered after `last = sequence;` and before `cnt++;`, the alarm
prints 0, resets the counters, and `cnt++` then leaves `cnt = 1` with `first`
and `last` unset, which is neither. With the counters 18, 100, 117 and the
packet 118, the handler reads `last = 118` with `cnt` still 18. -/
theorem alarm_between_updates :
    main_increment_cnt (main_set_last 5 (main_set_first 5 Window.initial)) =
        main_accept 5 Window.initial ∧
      main_accept_alarm 0 5 Window.initial =
        some (some 0, { cnt := 1, first := 5, last := 5 }) ∧
      main_accept_alarm 3 5 Window.initial =
        some (some 5, { cnt := 0, first := -1, last := -1 }) ∧
      main_accept_alarm 2 5 Window.initial =
        some (some 0, { cnt := 1, first := -1, last := -1 }) ∧
      main_accept_alarm 1 5 Window.initial =
        some (some 0, { cnt := 1, first := -1, last := 5 }) ∧
      main_set_last 118 (main_set_first 118 { cnt := 18, first := 100, last := 117 }) =
        { cnt := 18, first := 100, last := 118 } ∧
      main_accept_alarm 2 118 { cnt := 18, first := 100, last := 117 } =
        some (some 90, { cnt := 1, first := -1, last := -1 }) := by
  refine ⟨rfl, ?_, ?_, ?_, ?_, by decide, ?_⟩ <;>
    simp [main_accept_alarm, main_accept_statements, sig_alrm, main_set_first, main_set_last,
      main_increment_cnt, Window.initial, prr, TIMER, SIGALRM, wrap_int] <;>
    norm_num
end LoraMesh
